import Mathlib

/-! # TravelApp: the session / trip state composer and the local logic of the screens

The first and larger part is a shallow embedding of the `UserProvider`
component (`src/contexts/UserContext.js`); further sections embed
`generateInviteCode` (`src/screens/CreateTrip.js`), `validateCode` and
`handleJoin` (`src/screens/JoinTrip.js`), the grouping of the Itinerary and
PackingList screens, and the total and the form of the Expenses screen
(`src/screens/Expenses.js`).

`UserProvider` is a React function component: six `useState` cells, three
`useEffect` hooks and two callbacks handed to the backend
(`auth.onAuthStateChanged`, `onSnapshot`).

The embedding keeps the React mechanics that decide the behaviour of the code:

* an effect runs after a commit when its dependency array differs from the one
  of its previous run, its clean-up running first;
* an effect body and the callbacks it registers read the state values of the
  render in which the effect ran (the closure), not the latest ones;
* state written by an effect is seen by the next commit, so the component is
  re-rendered until no effect is pending (`settle`).

The backend is the environment: it delivers `Event`s.  A listener that has been
unsubscribed delivers nothing (the contract of `onSnapshot` and of
`onAuthStateChanged`), which the model renders by ignoring an event that is
not addressed to the listener that is registered at that moment.
-/

namespace TravelApp

/-! ## Data model -/

/-- A JavaScript value held in a field of a trip document. -/
inductive JsVal where
  | null
  | bool (b : Bool)
  | num (n : Int)
  | str (s : String)
  | arr (xs : List String)
  deriving DecidableEq, Repr

/-- A plain JavaScript object: its fields in insertion order. -/
abbrev JsObject := List (String × JsVal)

/-- Assignment `o[k] = v`: an existing key keeps its place and takes the new
value, a new key is appended. -/
def JsObject.set : JsObject → String → JsVal → JsObject
  | [], k, v => [(k, v)]
  | (k', v') :: rest, k, v =>
    if k' = k then (k, v) :: rest else (k', v') :: JsObject.set rest k v

/-- Field read `o[k]` (`none` for `undefined`). -/
def JsObject.get? : JsObject → String → Option JsVal
  | [], _ => none
  | (k', v') :: rest, k => if k' = k then some v' else JsObject.get? rest k

/-- Object spread `{...o, ...src}`: the fields of `src` are assigned onto `o`
in order. -/
def JsObject.spread (o src : JsObject) : JsObject :=
  src.foldl (fun acc kv => JsObject.set acc kv.1 kv.2) o

/-- A document of a query snapshot: `doc.id` and `doc.data()`. -/
structure Doc where
  id : String
  data : JsObject
  deriving DecidableEq, Repr

/-- A trip record as held in `userTrips` and `currentTrip`. -/
abbrev Trip := JsObject

/-- The record built by the snapshot callback: `{ id: doc.id, ...doc.data() }`
(UserContext.js, lines 42-45). -/
def Doc.toTrip (d : Doc) : Trip :=
  JsObject.spread [("id", JsVal.str d.id)] d.data

/-- The signed-in user delivered by `onAuthStateChanged`.  `UserProvider` reads
only `uid`; two deliveries are the same identity when they are equal. -/
structure User where
  uid : String
  deriving DecidableEq, Repr

/-- The membership listener registered by one run of the trips effect: which
`onSnapshot` call it is, the uid in the query, and the value of `currentTrip`
in the render the effect belongs to (the callback closes over it). -/
structure TripsListener where
  id : Nat
  uid : String
  currentTrip : Option Trip
  deriving DecidableEq, Repr

/-- The state of a mounted `UserProvider`: the six `useState` cells
(lines 11-16) and the bookkeeping React keeps for the hooks. -/
structure Provider where
  currentUser : Option User
  currentTrip : Option Trip
  userTrips : List Trip
  loading : Bool
  authLoading : Bool
  tripsLoading : Bool
  /-- The observer of the auth effect is registered (the component is mounted). -/
  authListener : Bool
  /-- The listener of the last run of the trips effect, until its clean-up. -/
  tripsListener : Option TripsListener
  /-- How many times `onSnapshot` has been called. -/
  listenerCount : Nat
  /-- The dependency array `[currentUser]` of the last run of the trips effect. -/
  tripsDeps : Option (Option User)
  /-- The dependency array `[authLoading, tripsLoading]` of the last run of the
  loading effect. -/
  loadingDeps : Option (Bool × Bool)
  deriving DecidableEq, Repr

/-- What a consumer of the context reads (lines 81-87), `selectTrip` apart. -/
structure ContextValue where
  currentUser : Option User
  currentTrip : Option Trip
  userTrips : List Trip
  loading : Bool
  deriving DecidableEq, Repr

/-- The `value` object of the provider. -/
def Provider.value (s : Provider) : ContextValue :=
  { currentUser := s.currentUser, currentTrip := s.currentTrip,
    userTrips := s.userTrips, loading := s.loading }

/-! ## Hooks -/

/-- The first render: the initial values of the `useState` cells, no effect run
yet. -/
def firstRender : Provider :=
  { currentUser := none, currentTrip := none, userTrips := [],
    loading := true, authLoading := true, tripsLoading := true,
    authListener := false, tripsListener := none, listenerCount := 0,
    tripsDeps := none, loadingDeps := none }

/-- The auth effect (lines 19-27, dependencies `[]`): registers the observer. -/
def authEffect (s : Provider) : Provider :=
  { s with authListener := true }

/-- The trips effect must run: `[currentUser]` differs from its last run. -/
def tripsEffectPending (s : Provider) : Bool :=
  decide (s.tripsDeps ≠ some s.currentUser)

/-- The loading effect must run: `[authLoading, tripsLoading]` differs from its
last run. -/
def loadingEffectPending (s : Provider) : Bool :=
  decide (s.loadingDeps ≠ some (s.authLoading, s.tripsLoading))

/-- The trips effect (lines 30-68).  `r` is the render the effect belongs to,
whose values its closure reads; `s` collects the writes.  The clean-up of the
previous run (`unsubscribe()`) comes first. -/
def tripsEffect (r s : Provider) : Provider :=
  let s := { s with tripsListener := none }
  match r.currentUser with
  | some user =>
    { s with
      tripsLoading := true
      tripsListener :=
        some { id := s.listenerCount, uid := user.uid, currentTrip := r.currentTrip }
      listenerCount := s.listenerCount + 1
      tripsDeps := some r.currentUser }
  | none =>
    { s with
      userTrips := []
      currentTrip := none
      tripsLoading := false
      tripsDeps := some r.currentUser }

/-- The loading effect (lines 71-73): `setLoading(authLoading || tripsLoading)`
with the values of the render `r`. -/
def loadingEffect (r s : Provider) : Provider :=
  { s with
    loading := r.authLoading || r.tripsLoading
    loadingDeps := some (r.authLoading, r.tripsLoading) }

/-- One commit: the effects whose dependencies changed run in the order of
their declaration, each reading the values of the committed render `r`. -/
def commitEffects (r : Provider) : Provider :=
  let s := if tripsEffectPending r then tripsEffect r r else r
  if loadingEffectPending r then loadingEffect r s else s

/-- Commit and re-render while an effect is pending, at most `fuel` times. -/
def settleN : Nat → Provider → Provider
  | 0, s => s
  | fuel + 1, s =>
    if tripsEffectPending s || loadingEffectPending s then
      settleN fuel (commitEffects s)
    else s

/-- Commit and re-render until no effect is pending (`settle_pending_false`
shows that three rounds are enough from every state). -/
def settle (s : Provider) : Provider :=
  settleN 3 s

/-- The component once mounted: first render, then its effects. -/
def mount : Provider :=
  settle (authEffect firstRender)

/-! ## Callbacks -/

/-- The observer of the auth effect (lines 20-23). -/
def onAuthStateChanged (user : Option User) (s : Provider) : Provider :=
  { s with currentUser := user, authLoading := false }

/-- The success callback of `onSnapshot` (lines 41-55), registered as listener
`l`: the test `!currentTrip` reads the value captured by `l`. -/
def onSnapshot (l : TripsListener) (docs : List Doc) (s : Provider) : Provider :=
  let trips := docs.map Doc.toTrip
  { s with
    userTrips := trips
    currentTrip :=
      if trips.length > 0 ∧ l.currentTrip = none then trips.head? else s.currentTrip
    tripsLoading := false }

/-- The error callback of `onSnapshot` (lines 55-58). -/
def onSnapshotError (s : Provider) : Provider :=
  { s with tripsLoading := false }

/-- The function `selectTrip` of the context (lines 76-78). -/
def selectTrip (trip : Trip) (s : Provider) : Provider :=
  { s with currentTrip := some trip }

/-- The clean-ups of the auth effect (line 26) and of the trips effect
(line 67), run when the component is unmounted. -/
def unmount (s : Provider) : Provider :=
  { s with authListener := false, tripsListener := none }

/-! ## Events -/

/-- What the environment can do to a mounted provider. -/
inductive Event where
  /-- The identity stream emits a user or `null`. -/
  | authStateChanged (user : Option User)
  /-- The `n`-th `onSnapshot` listener emits a snapshot. -/
  | snapshot (listener : Nat) (docs : List Doc)
  /-- The `n`-th `onSnapshot` listener reports an error. -/
  | snapshotError (listener : Nat)
  /-- A consumer calls `selectTrip`. -/
  | selectTrip (trip : Trip)
  /-- The provider is unmounted. -/
  | unmount
  deriving DecidableEq, Repr

/-- The listener `n` is the one currently registered. -/
def listening (s : Provider) (n : Nat) : Option TripsListener :=
  match s.tripsListener with
  | some l => if l.id = n then some l else none
  | none => none

/-- One event, processed until the component is quiescent again.  An event for
a listener that is not registered, and a state update of an unmounted
component, are dropped. -/
def step (s : Provider) : Event → Provider
  | Event.authStateChanged user =>
    if s.authListener then settle (onAuthStateChanged user s) else s
  | Event.snapshot n docs =>
    match listening s n with
    | some l => settle (onSnapshot l docs s)
    | none => s
  | Event.snapshotError n =>
    match listening s n with
    | some _ => settle (onSnapshotError s)
    | none => s
  | Event.selectTrip trip =>
    if s.authListener then settle (selectTrip trip s) else s
  | Event.unmount => unmount s

/-- The state after a sequence of events, starting from `s`. -/
def runFrom (s : Provider) (es : List Event) : Provider :=
  es.foldl step s

/-- The state of a freshly mounted provider after a sequence of events. -/
def run (es : List Event) : Provider :=
  runFrom mount es

/-- The states a provider can be in. -/
inductive Reachable : Provider → Prop where
  | mount : Reachable mount
  | step {s : Provider} (e : Event) : Reachable s → Reachable (step s e)

/-! ## Sample data -/

/-- The identity `{uid: "u1"}`. -/
def u1 : User := { uid := "u1" }

/-- The identity `{uid: "u2"}`. -/
def u2 : User := { uid := "u2" }

/-- The document of trip `t1`, named Paris. -/
def docT1 : Doc := { id := "t1", data := [("name", JsVal.str "Paris")] }

/-- The document of trip `t2`, named Rome. -/
def docT2 : Doc := { id := "t2", data := [("name", JsVal.str "Rome")] }

/-- The record `{id: "t1", name: "Paris"}`. -/
def T1 : Trip := [("id", JsVal.str "t1"), ("name", JsVal.str "Paris")]

/-- The record `{id: "t2", name: "Rome"}`. -/
def T2 : Trip := [("id", JsVal.str "t2"), ("name", JsVal.str "Rome")]

/-! ## Quiescence -/

/-- No effect is pending and `loading` agrees with the state it was computed
from. -/
def Quiescent (s : Provider) : Prop :=
  s.tripsDeps = some s.currentUser ∧
  s.loadingDeps = some (s.authLoading, s.tripsLoading) ∧
  s.loading = (s.authLoading || s.tripsLoading)

/-- The value of `loading` is the one the loading effect computed at its last
run (or the initial `true`, which is also `true || true`). -/
def LoadingSynced (s : Provider) : Prop :=
  ∃ a t, s.loadingDeps = some (a, t) ∧ s.loading = (a || t)

/-- The loading effect applied to the state itself. -/
def syncLoading (s : Provider) : Provider :=
  loadingEffect s s

/-! ## Invariants of the reachable states -/

/-- What holds in every state a provider can be in. -/
structure Inv (s : Provider) : Prop where
  quiescent : Quiescent s
  authPending : s.authLoading = true → s.currentUser = none
  signedOut : s.currentUser = none →
    s.userTrips = [] ∧ s.tripsListener = none ∧ s.tripsLoading = false
  listener : ∀ l, s.tripsListener = some l →
    l.id < s.listenerCount ∧ ∃ u, s.currentUser = some u ∧ l.uid = u.uid
  captured : ∀ l, s.tripsListener = some l → s.currentTrip = none → l.currentTrip = none

/-! ## Histories

Properties that speak of what happened earlier are stated over the list of
events `es` that led to the state `run es`: event `k` is delivered in the state
`run (es.take k)`. -/

/-- Event `k` of `es` is an emission of the identity stream that reaches the
registered observer. -/
def identityEmittedAt (es : List Event) (k : Nat) : Bool :=
  match es[k]? with
  | some (Event.authStateChanged _) => (run (es.take k)).authListener
  | _ => false

/-- When event `k` of `es` is a snapshot of the listener registered at that
moment: that listener and the documents. -/
def emissionAt (es : List Event) (k : Nat) : Option (TripsListener × List Doc) :=
  match es[k]? with
  | some (Event.snapshot n docs) =>
    (listening (run (es.take k)) n).map (fun l => (l, docs))
  | _ => none

/-- When event `k` of `es` is a snapshot or an error of the listener
registered at that moment: that listener. -/
def resultAt (es : List Event) (k : Nat) : Option TripsListener :=
  match es[k]? with
  | some (Event.snapshot n _) => listening (run (es.take k)) n
  | some (Event.snapshotError n) => listening (run (es.take k)) n
  | _ => none

/-- The list exposed after `es` is the payload of the emission at position `k`,
made by a listener keyed to the uid of `who`. -/
def PayloadAt (es : List Event) (k : Nat) (who : Option User) : Prop :=
  ∃ l docs u, emissionAt es k = some (l, docs) ∧
    (run es).userTrips = docs.map Doc.toTrip ∧ who = some u ∧ l.uid = u.uid

/-- The identity has been `u` from the delivery of event `k` of `es` on. -/
def IdentitySince (es : List Event) (k : Nat) (u : User) : Prop :=
  ∀ j, k ≤ j → j ≤ es.length → (run (es.take j)).currentUser = some u

/-- The membership stream of `u` has emitted since the last identity
transition. -/
def EmittedSince (es : List Event) (u : User) : Prop :=
  ∃ k, k < es.length ∧ ∃ l docs, emissionAt es k = some (l, docs) ∧ l.uid = u.uid ∧
    IdentitySince es k u

/-- The membership stream of `u` has emitted or reported an error since the
last identity transition. -/
def ResolvedSince (es : List Event) (u : User) : Prop :=
  ∃ k, k < es.length ∧ ∃ l, resultAt es k = some l ∧ l.uid = u.uid ∧
    IdentitySince es k u

/-- The selection is null or an element of `userTrips`. -/
def SelectionValid (s : Provider) : Prop :=
  ∀ t, s.currentTrip = some t → t ∈ s.userTrips

/-- The event respects the selection in state `s`: a `selectTrip` passes an
element of `userTrips`, and a snapshot that is delivered still contains the
selected trip. -/
def keepsSelection (s : Provider) : Event → Bool
  | Event.selectTrip trip => decide (trip ∈ s.userTrips)
  | Event.snapshot n docs =>
    match s.currentTrip with
    | some t => (listening s n).isNone || decide (t ∈ docs.map Doc.toTrip)
    | none => true
  | _ => true

/-- Every event of `es`, delivered from `s` on, respects the selection. -/
def Disciplined : Provider → List Event → Bool
  | _, [] => true
  | s, e :: es => keepsSelection s e && Disciplined (step s e) es

/-- Sample history: `u1` signs in, the list `[T1]` arrives, the identity changes
directly to `u2`. -/
def switchHistory : List Event :=
  [Event.authStateChanged (some u1), Event.snapshot 0 [docT1],
   Event.authStateChanged (some u2)]

/-- Sample history: `u1` signs in and the list `[T1]` arrives. -/
def loadedHistory : List Event :=
  [Event.authStateChanged (some u1), Event.snapshot 0 [docT1]]

/-- Sample events after the change to `u2`: a selection, a late emission of the
listener of `u1` (listener 0, torn down), and the identity stream repeating
`u2`. -/
def quietEvents : List Event :=
  [Event.selectTrip T2, Event.snapshot 0 [docT2], Event.authStateChanged (some u2)]

/-- Sample history: `u1` signs in and the membership query fails. -/
def errorHistory : List Event :=
  [Event.authStateChanged (some u1), Event.snapshotError 0]

/-- A document whose data carries a field named `id` of its own. -/
def docShadow : Doc :=
  { id := "t3", data := [("id", JsVal.str "other"), ("name", JsVal.str "Oslo")] }

/-- A record that is in no list of the sample histories. -/
def T9 : Trip := [("id", JsVal.str "t9"), ("name", JsVal.str "Lima")]

/-- The names of the fields of an object, in insertion order. -/
def JsObject.fieldNames (o : JsObject) : List String :=
  o.map Prod.fst

/-! ## CreateTrip: the invite code (`src/screens/CreateTrip.js`)

JavaScript strings are lists of characters here.  `Math.random()` returns an
IEEE-754 double in `[0, 1)`; every such double is `m * 2^(-k)` for a
significand `m < 2^53` and a scale `53 ≤ k ≤ 1074`, and the product with
`chars.length` is rounded to the nearest double, ties to even, before
`Math.floor` is applied. -/

/-- A value of `Math.random()`: the double `m * 2^(-k)`. -/
structure Draw where
  m : Nat
  k : Nat
  deriving DecidableEq, Repr

/-- The pair denotes a double in `[0, 1)`. -/
def Draw.valid (d : Draw) : Prop :=
  d.m < 2 ^ 53 ∧ 53 ≤ d.k ∧ d.k ≤ 1074

/-- The integer nearest to `n / 2^s`, ties to even. -/
def roundHalfEven (n s : Nat) : Nat :=
  let q := n / 2 ^ s
  let r := n % 2 ^ s
  if 2 * r < 2 ^ s then q
  else if 2 ^ s < 2 * r then q + 1
  else if q % 2 = 0 then q else q + 1

/-- Number of binary digits of `n`, by halving at most `fuel` times. -/
def bitLengthAux : Nat → Nat → Nat
  | 0, _ => 0
  | fuel + 1, n => if n = 0 then 0 else bitLengthAux fuel (n / 2) + 1

/-- Number of binary digits of `n` (`0` for `0`). -/
def bitLength (n : Nat) : Nat :=
  bitLengthAux n n

/-- How many low bits of `n` do not fit a 53-bit significand. -/
def excessBits (n : Nat) : Nat :=
  bitLength n - 53

/-- The index `Math.floor(Math.random() * chars.length)` (line 27) for the draw
`d` and the length `len`: the exact product is `(d.m * len) * 2^(-d.k)`; it is
rounded to a 53-bit significand `sig` at scale `2^(s - d.k)`, then floored. -/
def randomIndex (d : Draw) (len : Nat) : Nat :=
  let n := d.m * len
  let s := excessBits n
  let sig := roundHalfEven n s
  if s ≤ d.k then sig / 2 ^ (d.k - s) else sig * 2 ^ (s - d.k)

/-- The alphabet `chars` of `generateInviteCode` (line 24). -/
def chars : List Char :=
  "ABCDEFGHIJKLMNOPQRSTUVWXYZ0123456789".toList

/-- The string `s.charAt(i)`: one character, or the empty string when `i` is
out of range. -/
def charAt (s : List Char) (i : Nat) : List Char :=
  match s[i]? with
  | some c => [c]
  | none => []

/-- The function `generateInviteCode` (lines 23-30); `random i` is the value
returned by the call of `Math.random()` in iteration `i` of the loop. -/
def generateInviteCode (random : Nat → Draw) : List Char :=
  (List.range 6).foldl
    (fun code i => code ++ charAt chars (randomIndex (random i) chars.length)) []

/-- The largest double below `1`. -/
def largestDraw : Draw := { m := 2 ^ 53 - 1, k := 53 }

/-! ## JoinTrip (`src/screens/JoinTrip.js`) -/

/-- The characters removed by `String.prototype.trim`: the white space and
line terminator code points of ECMAScript. -/
def isJsWhitespace (c : Char) : Bool :=
  let n := c.toNat
  n = 0x9 || n = 0xA || n = 0xB || n = 0xC || n = 0xD || n = 0x20 || n = 0xA0 ||
  n = 0x1680 || (0x2000 ≤ n && n ≤ 0x200A) || n = 0x2028 || n = 0x2029 ||
  n = 0x202F || n = 0x205F || n = 0x3000 || n = 0xFEFF

/-- The string `s.trim()`. -/
def jsTrim (s : List Char) : List Char :=
  ((s.dropWhile isJsWhitespace).reverse.dropWhile isJsWhitespace).reverse

/-- The number `s.length`: UTF-16 code units. -/
def jsLength (s : List Char) : Nat :=
  (s.map (fun c => if c.toNat < 0x10000 then 1 else 2)).sum

/-- The function `validateCode` (lines 28-31): `code.trim().length >= 6`. -/
def validateCode (code : List Char) : Bool :=
  decide (jsLength (jsTrim code) ≥ 6)

/-- A document of the `trips` collection as `handleJoin` reads it: its id, its
`inviteCode`, its `members` array (`none` when the field is missing) and its
other fields. -/
structure TripDoc where
  id : String
  inviteCode : List Char
  members : Option (List String)
  fields : JsObject
  deriving DecidableEq, Repr

/-- How a call of `handleJoin` ends. -/
inductive JoinOutcome where
  /-- Alert "Please enter a trip code" (lines 34-37). -/
  | emptyCode
  /-- Alert "Invalid code format" (lines 39-42). -/
  | invalidFormat
  /-- Alert "Invalid trip code": the query is empty (lines 56-61). -/
  | invalidCode
  /-- Alert "You are already a member of this trip" (lines 72-77). -/
  | alreadyMember
  /-- Alert "You've joined the trip" (lines 85-90). -/
  | joined
  /-- Alert "Failed to join trip": an exception was caught (lines 91-94). -/
  | failed
  deriving DecidableEq, Repr

/-- Whether the outcome is one of the error alerts. -/
def JoinOutcome.isError : JoinOutcome → Bool
  | JoinOutcome.alreadyMember => false
  | JoinOutcome.joined => false
  | _ => true

/-- Which backend calls of this run of `handleJoin` reject. -/
structure Backend where
  getDocsFails : Bool
  updateDocFails : Bool
  deriving DecidableEq, Repr

/-- The collection after `handleJoin` and how the call ended. -/
structure JoinResult where
  trips : List TripDoc
  outcome : JoinOutcome
  deriving DecidableEq, Repr

/-- The test `tripData.members && tripData.members.includes(uid)` (line 72). -/
def isMember (t : TripDoc) (uid : String) : Bool :=
  match t.members with
  | some ms => decide (uid ∈ ms)
  | none => false

/-- The field update `members: arrayUnion(uid)`: the uid is appended unless
present; a missing field becomes `[uid]`. -/
def arrayUnion (uid : String) (t : TripDoc) : TripDoc :=
  match t.members with
  | some ms => { t with members := some (if uid ∈ ms then ms else ms ++ [uid]) }
  | none => { t with members := some [uid] }

/-- The call `updateDoc(doc(db, "trips", tripId), ...)`: the document with that
id is updated. -/
def updateDoc (trips : List TripDoc) (tripId : String) (f : TripDoc → TripDoc) :
    List TripDoc :=
  trips.map (fun t => if t.id = tripId then f t else t)

/-- The function `handleJoin` (lines 33-98).  `trips` is the collection in the
order in which the backend returns query results, `code` the text of the input
field, `currentUser` the value of `auth.currentUser`. -/
def handleJoin (trips : List TripDoc) (code : List Char) (currentUser : Option User)
    (backend : Backend) : JoinResult :=
  if jsTrim code = [] then { trips := trips, outcome := JoinOutcome.emptyCode }
  else if validateCode code = false then
    { trips := trips, outcome := JoinOutcome.invalidFormat }
  else if backend.getDocsFails then { trips := trips, outcome := JoinOutcome.failed }
  else
    match trips.filter (fun t => decide (t.inviteCode = jsTrim code)) with
    | [] => { trips := trips, outcome := JoinOutcome.invalidCode }
    | tripDoc :: _ =>
      match currentUser with
      | none => { trips := trips, outcome := JoinOutcome.failed }
      | some user =>
        if isMember tripDoc user.uid then
          { trips := trips, outcome := JoinOutcome.alreadyMember }
        else if backend.updateDocFails then
          { trips := trips, outcome := JoinOutcome.failed }
        else
          { trips := updateDoc trips tripDoc.id (arrayUnion user.uid),
            outcome := JoinOutcome.joined }

/-- A backend whose calls all succeed. -/
def backendOk : Backend := { getDocsFails := false, updateDocFails := false }

/-- A trip whose invite code has three characters. -/
def shortCodeTrip : TripDoc :=
  { id := "a", inviteCode := "ABC".toList, members := some ["x"], fields := [] }

/-- A trip with the invite code `ABCDEF` and the member `x`. -/
def tripABCDEF : TripDoc :=
  { id := "b", inviteCode := "ABCDEF".toList, members := some ["x"], fields := [] }

/-- Another trip, with the invite code `QRSTUV`. -/
def tripQRSTUV : TripDoc :=
  { id := "c", inviteCode := "QRSTUV".toList, members := some ["y"], fields := [] }

/-! ## Grouping (`src/screens/Itinerary.js`, `src/screens/PackingList.js`) -/

/-- An item of a screen's list: the record `{ id: doc.id, ...doc.data() }`. -/
abbrev Item := JsObject

/-- The conversion `ToBoolean`. -/
def JsVal.truthy : JsVal → Bool
  | JsVal.null => false
  | JsVal.bool b => b
  | JsVal.num n => decide (n ≠ 0)
  | JsVal.str s => decide (s ≠ "")
  | JsVal.arr _ => true

/-- The property key a value stands for in `groups[value]`: its `ToString`
(for a number: an integer below `10^21`). -/
def JsVal.toKey : JsVal → String
  | JsVal.null => "null"
  | JsVal.bool b => if b then "true" else "false"
  | JsVal.num n => toString n
  | JsVal.str s => s
  | JsVal.arr xs => ",".intercalate xs

/-- The expression `item[field] || dflt` (Itinerary.js line 143,
PackingList.js line 153). -/
def orDefault (v : Option JsVal) (dflt : String) : JsVal :=
  match v with
  | some x => if x.truthy then x else JsVal.str dflt
  | none => JsVal.str dflt

/-- The key under which an item is grouped. -/
def groupKey (field dflt : String) (item : Item) : String :=
  (orDefault (JsObject.get? item field) dflt).toKey

/-- The names every object literal inherits from `Object.prototype`; the value
found under each of them is a function or an object, hence truthy, and has no
`push`. -/
def objectPrototypeNames : List String :=
  ["constructor", "__defineGetter__", "__defineSetter__", "hasOwnProperty",
   "__lookupGetter__", "__lookupSetter__", "isPrototypeOf", "propertyIsEnumerable",
   "toString", "valueOf", "__proto__", "toLocaleString"]

/-- The own properties of the accumulator `groups`, in creation order. -/
abbrev Groups := List (String × List Item)

/-- One call of the reducer (Itinerary.js lines 142-149, PackingList.js lines
152-159).  `groups[key]` is an own array, or a member inherited from
`Object.prototype`, or `undefined`; only in the last case is an array created.
Calling `push` on an inherited member throws a `TypeError`. -/
def groupStep (field dflt : String) (groups : Groups) (item : Item) :
    Except String Groups :=
  let key := groupKey field dflt item
  if groups.any (fun g => decide (g.1 = key)) then
    Except.ok (groups.map (fun g => if g.1 = key then (g.1, g.2 ++ [item]) else g))
  else if key ∈ objectPrototypeNames then
    Except.error "TypeError: groups[key].push is not a function"
  else
    Except.ok (groups ++ [(key, [item])])

/-- The call `items.reduce(reducer, groups)`. -/
def groupItems (field dflt : String) : Groups → List Item → Except String Groups
  | groups, [] => Except.ok groups
  | groups, item :: rest =>
    match groupStep field dflt groups item with
    | Except.ok next => groupItems field dflt next rest
    | Except.error e => Except.error e

/-- The number written by a list of decimal digits. -/
def digitsValue (cs : List Char) : Nat :=
  cs.foldl (fun n c => 10 * n + (c.toNat - 48)) 0

/-- The number a property key denotes when it is an array index: a canonical
decimal numeral (no leading zero) below `2^32 - 1`. -/
def arrayIndex? (k : String) : Option Nat :=
  let cs := k.toList
  if cs ≠ [] ∧ cs.all Char.isDigit = true ∧ (cs.head? ≠ some '0' ∨ cs.length = 1) ∧
      digitsValue cs < 4294967295 then
    some (digitsValue cs)
  else none

/-- The list `Object.keys(groups)`: array indices in ascending order, then the
other keys in creation order. -/
def objectKeys (groups : Groups) : List String :=
  (((groups.map Prod.fst).filter (fun k => (arrayIndex? k).isSome)).insertionSort
      (fun a b => (arrayIndex? a).getD 0 ≤ (arrayIndex? b).getD 0)) ++
    (groups.map Prod.fst).filter (fun k => (arrayIndex? k).isNone)

/-- An element of `groupedData`: `{ date, data }` or `{ category, data }`. -/
structure Group where
  key : String
  data : List Item
  deriving DecidableEq, Repr

/-- The value `groups[key]` of an own property. -/
def ownItems (groups : Groups) (key : String) : List Item :=
  match groups.find? (fun g => decide (g.1 = key)) with
  | some g => g.2
  | none => []

/-- The array `groupedData` computed during a render of the screen that groups
by `field` with the default key `dflt`, or the error thrown. -/
def groupedData (field dflt : String) (items : List Item) : Except String (List Group) :=
  match groupItems field dflt [] items with
  | Except.ok groups =>
    Except.ok ((objectKeys groups).map (fun k => { key := k, data := ownItems groups k }))
  | Except.error e => Except.error e

/-- The array `groupedData` of the Itinerary screen (lines 141-155). -/
def itineraryGroupedData (items : List Item) : Except String (List Group) :=
  groupedData "date" "No date specified" items

/-- The array `groupedData` of the PackingList screen (lines 151-165). -/
def packingListGroupedData (items : List Item) : Except String (List Group) :=
  groupedData "category" "General" items

/-- A packing item in the category `Clothes`. -/
def itemSocks : Item :=
  [("id", JsVal.str "p1"), ("text", JsVal.str "Socks"), ("category", JsVal.str "Clothes")]

/-- A packing item whose category is empty. -/
def itemPassport : Item :=
  [("id", JsVal.str "p2"), ("text", JsVal.str "Passport"), ("category", JsVal.str "")]

/-- A second packing item in the category `Clothes`. -/
def itemHat : Item :=
  [("id", JsVal.str "p3"), ("text", JsVal.str "Hat"), ("category", JsVal.str "Clothes")]

/-- A packing item whose category is the text `constructor`. -/
def itemConstructor : Item :=
  [("id", JsVal.str "p4"), ("text", JsVal.str "Helmet"),
   ("category", JsVal.str "constructor")]

/-- An itinerary entry whose date is the text `toString`. -/
def entryToString : Item :=
  [("id", JsVal.str "i1"), ("text", JsVal.str "Museum"), ("date", JsVal.str "toString")]

/-! ## Expenses (`src/screens/Expenses.js`)

A JavaScript number is an IEEE-754 double.  The finite ones are kept as a sign,
a significand and a binary exponent; the sum of two doubles is their exact sum
rounded to the nearest double, ties to even. -/

/-- A JavaScript number: `NaN`, an infinity, or the finite number
`(-1)^neg * m * 2^e`. -/
inductive JsNumber where
  | nan
  | inf (neg : Bool)
  | fin (neg : Bool) (m : Nat) (e : Int)
  deriving DecidableEq, Repr

/-- The number `+0`. -/
def JsNumber.zero : JsNumber :=
  JsNumber.fin false 0 0

/-- Halve `m` while it is even, at most `fuel` times, counting in `e`. -/
def stripZeros : Nat → Nat → Int → Nat × Int
  | 0, m, e => (m, e)
  | fuel + 1, m, e => if m % 2 = 0 then stripZeros fuel (m / 2) (e + 1) else (m, e)

/-- The finite number `(-1)^neg * m * 2^e` in its canonical form: an odd
significand, or `0 * 2^0`. -/
def mkFin (neg : Bool) (m : Nat) (e : Int) : JsNumber :=
  if m = 0 then JsNumber.fin neg 0 0
  else JsNumber.fin neg (stripZeros m m e).1 (stripZeros m m e).2

/-- The double nearest to `(-1)^neg * m * 2^e`, ties to even: the significand
is cut to 53 bits, or to the bits above `2^-1074` for a subnormal result, and
a result of magnitude `2^1024` or more is an infinity. -/
def roundToDouble (neg : Bool) (m : Nat) (e : Int) : JsNumber :=
  if m = 0 then JsNumber.fin neg 0 0
  else
    let s := max (bitLength m - 53) (-1074 - e).toNat
    let sig := roundHalfEven m s
    if (bitLength sig : Int) + (e + s) > 1024 then JsNumber.inf neg
    else mkFin neg sig (e + s)

/-- The sum `x + y` of two numbers. -/
def JsNumber.add : JsNumber → JsNumber → JsNumber
  | JsNumber.nan, _ => JsNumber.nan
  | _, JsNumber.nan => JsNumber.nan
  | JsNumber.inf a, JsNumber.inf b => if a = b then JsNumber.inf a else JsNumber.nan
  | JsNumber.inf a, JsNumber.fin _ _ _ => JsNumber.inf a
  | JsNumber.fin _ _ _, JsNumber.inf b => JsNumber.inf b
  | JsNumber.fin n1 m1 e1, JsNumber.fin n2 m2 e2 =>
    let e := min e1 e2
    let a := m1 * 2 ^ (e1 - e).toNat
    let b := m2 * 2 ^ (e2 - e).toNat
    if n1 = n2 then roundToDouble n1 (a + b) e
    else if a = b then JsNumber.zero
    else if b < a then roundToDouble n1 (a - b) e
    else roundToDouble n2 (b - a) e

/-- The test `isNaN(x)`. -/
def JsNumber.isNaN : JsNumber → Bool
  | JsNumber.nan => true
  | _ => false

/-- The comparison `x <= 0`. -/
def JsNumber.leZero : JsNumber → Bool
  | JsNumber.nan => false
  | JsNumber.inf neg => neg
  | JsNumber.fin neg m _ => neg || decide (m = 0)

/-- The number is strictly greater than `0`. -/
def JsNumber.isPositive : JsNumber → Bool
  | JsNumber.nan => false
  | JsNumber.inf neg => !neg
  | JsNumber.fin neg m _ => !neg && decide (m ≠ 0)

/-- The conversion `ToBoolean` of a number: false for `NaN`, `+0` and `-0`. -/
def JsNumber.truthy : JsNumber → Bool
  | JsNumber.nan => false
  | JsNumber.inf _ => true
  | JsNumber.fin _ m _ => decide (m ≠ 0)

/-- The expression `x || 0`. -/
def orZero (x : JsNumber) : JsNumber :=
  if x.truthy then x else JsNumber.zero

/-- The double nearest to `(-1)^neg * p / q` for `q > 0`: the quotient is taken
with at least 59 bits and a sticky bit for the remainder, then rounded. -/
def roundRatio (neg : Bool) (p q : Nat) : JsNumber :=
  let t : Int := 60 + (bitLength q : Int) - (bitLength p : Int)
  let num := p * 2 ^ t.toNat
  let den := q * 2 ^ (-t).toNat
  let sticky := if num % den = 0 then 0 else 1
  roundToDouble neg (2 * (num / den) + sticky) (-(t + 1))

/-- The double nearest to `(-1)^neg * d * 10^x`, where `d` is written with at
most `len` digits.  A nonzero `d` with `x > 400` is beyond the largest double,
and `len + x < -400` is below half the smallest one. -/
def decimalToDouble (neg : Bool) (d len : Nat) (x : Int) : JsNumber :=
  if d = 0 then JsNumber.fin neg 0 0
  else if x > 400 then JsNumber.inf neg
  else if (len : Int) + x < -400 then JsNumber.fin neg 0 0
  else if 0 ≤ x then roundToDouble neg (d * 10 ^ x.toNat) 0
  else roundRatio neg d (10 ^ (-x).toNat)

/-- The value of an `ExponentPart` at the head of `cs`, `0` when there is
none: `e` or `E`, an optional sign, at least one digit. -/
def exponentPart (cs : List Char) : Int :=
  match cs with
  | c :: rest =>
    if c = 'e' ∨ c = 'E' then
      match rest with
      | '-' :: ds =>
        if (ds.takeWhile Char.isDigit) = [] then 0
        else -(digitsValue (ds.takeWhile Char.isDigit) : Int)
      | '+' :: ds => (digitsValue (ds.takeWhile Char.isDigit) : Int)
      | ds => (digitsValue (ds.takeWhile Char.isDigit) : Int)
    else 0
  | [] => 0

/-- The unsigned part of a `StrDecimalLiteral` at the head of `cs`. -/
def parseUnsigned (neg : Bool) (cs : List Char) : JsNumber :=
  if "Infinity".toList.isPrefixOf cs then JsNumber.inf neg
  else
    let ip := cs.takeWhile Char.isDigit
    let r1 := cs.dropWhile Char.isDigit
    let fp := match r1 with
      | '.' :: r => r.takeWhile Char.isDigit
      | _ => []
    let r2 := match r1 with
      | '.' :: r => r.dropWhile Char.isDigit
      | _ => r1
    if ip = [] ∧ fp = [] then JsNumber.nan
    else
      decimalToDouble neg (digitsValue (ip ++ fp)) (ip ++ fp).length
        (exponentPart r2 - fp.length)

/-- The built-in `parseFloat` on a string: leading white space is skipped and
the longest prefix that is a decimal literal is converted; `NaN` when there is
none. -/
def parseFloat (s : List Char) : JsNumber :=
  match s.dropWhile isJsWhitespace with
  | '-' :: cs => parseUnsigned true cs
  | '+' :: cs => parseUnsigned false cs
  | cs => parseUnsigned false cs

/-- The decimal digits of `n`, most significant first, prepended to `acc`. -/
def decimalAux : Nat → Nat → List Char → List Char
  | 0, _, acc => acc
  | fuel + 1, n, acc =>
    if n < 10 then Nat.digitChar n :: acc
    else decimalAux fuel (n / 10) (Nat.digitChar (n % 10) :: acc)

/-- The decimal numeral of `n`. -/
def decimal (n : Nat) : List Char :=
  decimalAux (n + 1) n []

/-- What `x.toFixed(2)` returns: a text that the model spells out, or the
string `Number::toString(x)` of a finite `x` of magnitude `10^21` or more, which
is in exponent notation (`1e+21` for `10^21`). -/
inductive Rendered where
  | text (s : List Char)
  | numberToString (x : JsNumber)
  deriving DecidableEq, Repr

/-- The method call `x.toFixed(2)`.  For a finite `x` below `10^21` in
magnitude, `n` is the integer nearest to `100 * |x|` (the larger one on a tie)
and the text is the sign, the numeral of `n / 100`, a point and the two digits
of `n % 100`. -/
def toFixed2 : JsNumber → Rendered
  | JsNumber.nan => Rendered.text "NaN".toList
  | JsNumber.inf neg =>
    Rendered.text (if neg then "-Infinity".toList else "Infinity".toList)
  | JsNumber.fin neg m e =>
    let big := m * 2 ^ e.toNat
    let den := 2 ^ (-e).toNat
    if 10 ^ 21 * den ≤ big then Rendered.numberToString (JsNumber.fin neg m e)
    else
      let n := (200 * big + den) / (2 * den)
      Rendered.text
        ((if neg ∧ m ≠ 0 then ['-'] else []) ++ decimal (n / 100) ++
          ['.', Nat.digitChar (n % 100 / 10), Nat.digitChar (n % 10)])

/-- The field `amount` of an expense record: absent, a number, a string, or
another value whose string form has no numeric prefix (`null`, a boolean, a
plain object). -/
inductive AmountField where
  | missing
  | number (x : JsNumber)
  | text (s : List Char)
  | other
  deriving DecidableEq, Repr

/-- An expense record of the list, `{ id: doc.id, ...doc.data() }`, as far as
the screen reads it. -/
structure Expense where
  id : String
  desc : List Char
  amount : AmountField
  deriving DecidableEq, Repr

/-- The call `parseFloat(expense.amount)` (line 86): the argument is converted
to a string first; the string of a number parses back to that number (`-0`
becomes `0`), the string `undefined` of a missing field to `NaN`.  `parse`
stands for the built-in on strings, which `parseFloat` above models. -/
def parseAmount (parse : List Char → JsNumber) : AmountField → JsNumber
  | AmountField.missing => JsNumber.nan
  | AmountField.number x => if x.truthy then x else if x.isNaN then x else JsNumber.zero
  | AmountField.text s => parse s
  | AmountField.other => JsNumber.nan

/-- The number `expenseTotal` of the snapshot callback (lines 85-86). -/
def expenseTotal (parse : List Char → JsNumber) (expenses : List Expense) :
    JsNumber :=
  expenses.foldl
    (fun sum expense => JsNumber.add sum (orZero (parseAmount parse expense.amount)))
    JsNumber.zero

/-- The state `total` after a snapshot with the records `expenses`
(line 87), shown as `Total: $...` (line 189). -/
def displayedTotal (parse : List Char → JsNumber) (expenses : List Expense) :
    Rendered :=
  toFixed2 (expenseTotal parse expenses)

/-- The text is a numeral with exactly two decimal places: an optional minus
sign, at least one digit, a point and two digits. -/
def TwoDecimals : Rendered → Prop
  | Rendered.text s =>
    ∃ sign digits d1 d2, s = sign ++ digits ++ ['.', d1, d2] ∧
      (sign = [] ∨ sign = ['-']) ∧ digits ≠ [] ∧ (∀ c ∈ digits, c.isDigit = true) ∧
      d1.isDigit = true ∧ d2.isDigit = true
  | Rendered.numberToString _ => False

/-- The value is a double: `NaN`, an infinity, zero, or an odd significand
below `2^53` with an exponent from `-1074` on and a magnitude below `2^1024`. -/
def IsDouble : JsNumber → Prop
  | JsNumber.nan => True
  | JsNumber.inf _ => True
  | JsNumber.fin _ m e =>
    (m = 0 ∧ e = 0) ∨
    (m % 2 = 1 ∧ m < 2 ^ 53 ∧ -1074 ≤ e ∧ (bitLength m : Int) + e ≤ 1024)

/-- The fields of the form of the Expenses screen. -/
structure ExpenseForm where
  desc : List Char
  amount : List Char
  deriving DecidableEq, Repr

/-- The alert raised by `validateInputs` (lines 37-55), if any. -/
def validationAlert (parse : List Char → JsNumber) (form : ExpenseForm) :
    Option String :=
  if jsTrim form.desc = [] then some "Please enter a description"
  else if jsTrim form.amount = [] then some "Please enter an amount"
  else if (parse form.amount).isNaN || (parse form.amount).leZero then
    some "Please enter a valid amount"
  else none

/-- The function `validateInputs` (lines 37-55): true when no alert is raised. -/
def validateInputs (parse : List Char → JsNumber) (form : ExpenseForm) : Bool :=
  (validationAlert parse form).isNone

/-- The document passed to `addDoc` (lines 110-117). -/
structure ExpenseDoc where
  userId : String
  userName : String
  tripId : String
  desc : List Char
  amount : JsNumber
  createdAt : Nat
  deriving DecidableEq, Repr

/-- What `addExpense` reads besides the form: the signed-in user and its
display name, the trip of the screen, the clock, and whether `addDoc`
rejects. -/
structure ExpenseContext where
  user : User
  displayName : Option String
  tripId : String
  now : Nat
  addDocFails : Bool
  deriving DecidableEq, Repr

/-- The outcome of `addExpense`: the document written to the `expenses`
collection if any, the form fields afterwards, the alert shown if any. -/
structure AddExpenseResult where
  written : Option ExpenseDoc
  form : ExpenseForm
  alert : Option String
  deriving DecidableEq, Repr

/-- The expression `auth.currentUser.displayName || 'User'` (line 112). -/
def userNameOf (displayName : Option String) : String :=
  match displayName with
  | some name => if name = "" then "User" else name
  | none => "User"

/-- The function `addExpense` (lines 106-125). -/
def addExpense (parse : List Char → JsNumber) (ctx : ExpenseContext)
    (form : ExpenseForm) : AddExpenseResult :=
  match validationAlert parse form with
  | some message => { written := none, form := form, alert := some message }
  | none =>
    if ctx.addDocFails then
      { written := none, form := form, alert := some "Failed to save expense" }
    else
      { written := some
          { userId := ctx.user.uid, userName := userNameOf ctx.displayName,
            tripId := ctx.tripId, desc := jsTrim form.desc,
            amount := parse form.amount, createdAt := ctx.now },
        form := { desc := [], amount := [] },
        alert := none }

/-- The number `10^21`. -/
def tenTo21 : JsNumber := JsNumber.fin false 476837158203125 21

/-- The number `2^53`. -/
def twoTo53 : JsNumber := JsNumber.fin false 1 53

/-- The number `1`. -/
def jsOne : JsNumber := JsNumber.fin false 1 0

/-- An expense with the given number as amount. -/
def expenseOf (x : JsNumber) : Expense :=
  { id := "e", desc := "Taxi".toList, amount := AmountField.number x }

/-- A context in which `u1` is signed in and `addDoc` succeeds. -/
def ctxOk : ExpenseContext :=
  { user := u1, displayName := none, tripId := "t1", now := 0, addDocFails := false }

/-- The same context with an `addDoc` that rejects. -/
def ctxFails : ExpenseContext :=
  { user := u1, displayName := none, tripId := "t1", now := 0, addDocFails := true }

/-- A form that passes validation. -/
def formTaxi : ExpenseForm :=
  { desc := " Taxi ".toList, amount := "12.5".toList }

/-- The number is a zero with the sign bit set. -/
def JsNumber.isNegZero : JsNumber → Bool
  | JsNumber.fin true 0 _ => true
  | _ => false

/-- The numbers met while summing: doubles other than `-0`. -/
def SumValue (x : JsNumber) : Prop :=
  IsDouble x ∧ x.isNegZero = false

/-- The amount field holds a double when it holds a number. -/
def AmountField.wellFormed : AmountField → Prop
  | AmountField.number x => IsDouble x
  | _ => True

/-- The double that is the whole number `k` (exact for `k < 2^53`). -/
def JsNumber.ofNat (k : Nat) : JsNumber :=
  mkFin false k 0

/-! ## Effects settle -/

theorem settle_pending_false (s : Provider) :
    tripsEffectPending (settle s) = false ∧ loadingEffectPending (settle s) = false := by
  rcases s with ⟨cu, ct, ut, ld, al, tl, aL, tL, lc, td, ldp⟩
  simp only [settle, settleN, commitEffects, tripsEffectPending, loadingEffectPending,
    tripsEffect, loadingEffect]
  by_cases h1 : td = some cu <;> by_cases h2 : ldp = some (al, tl) <;>
    cases cu <;> cases al <;> cases tl <;> simp_all

theorem settle_eq (s : Provider) (h : LoadingSynced s) :
    settle s = syncLoading (if tripsEffectPending s then tripsEffect s s else s) := by
  rcases s with ⟨cu, ct, ut, ld, al, tl, aL, tL, lc, td, ldp⟩
  obtain ⟨a, t, hd, hl⟩ := h
  simp only at hd hl
  subst hd hl
  simp only [settle, settleN, commitEffects, tripsEffectPending, loadingEffectPending,
    tripsEffect, loadingEffect, syncLoading]
  by_cases h1 : td = some cu <;>
    cases cu <;> cases al <;> cases tl <;> cases a <;> cases t <;> simp_all

theorem loadingSynced_of_quiescent {s : Provider} (h : Quiescent s) : LoadingSynced s :=
  ⟨s.authLoading, s.tripsLoading, h.2.1, h.2.2⟩

theorem listening_eq_some {s : Provider} {n : Nat} {l : TripsListener}
    (h : listening s n = some l) : s.tripsListener = some l ∧ l.id = n := by
  unfold listening at h
  split at h
  · split at h
    · simp_all
    · simp at h
  · simp at h

/-! ### The effect of each event on a quiescent state -/

theorem step_auth_same {s : Provider} (hq : Quiescent s) (hm : s.authListener = true) :
    step s (Event.authStateChanged s.currentUser) =
      { s with authLoading := false, loading := s.tripsLoading,
               loadingDeps := some (false, s.tripsLoading) } := by
  have hs : LoadingSynced (onAuthStateChanged s.currentUser s) :=
    (loadingSynced_of_quiescent hq : LoadingSynced s)
  simp only [step, hm, if_true]
  rw [settle_eq _ hs]
  rcases s with ⟨cu, ct, ut, ld, al, tl, aL, tL, lc, td, ldp⟩
  obtain ⟨h1, h2, h3⟩ := hq
  simp only at h1 h2 h3 hm
  subst h1 h2 h3 hm
  simp [onAuthStateChanged, tripsEffectPending, syncLoading, loadingEffect]

theorem step_auth_some {s : Provider} (hq : Quiescent s) (hm : s.authListener = true)
    (u : User) (hu : s.currentUser ≠ some u) :
    step s (Event.authStateChanged (some u)) =
      { s with currentUser := some u, authLoading := false, tripsLoading := true,
               tripsListener :=
                 some { id := s.listenerCount, uid := u.uid, currentTrip := s.currentTrip },
               listenerCount := s.listenerCount + 1,
               tripsDeps := some (some u), loading := true,
               loadingDeps := some (false, true) } := by
  have hs : LoadingSynced (onAuthStateChanged (some u) s) :=
    (loadingSynced_of_quiescent hq : LoadingSynced s)
  simp only [step, hm, if_true]
  rw [settle_eq _ hs]
  rcases s with ⟨cu, ct, ut, ld, al, tl, aL, tL, lc, td, ldp⟩
  obtain ⟨h1, h2, h3⟩ := hq
  simp only at h1 h2 h3 hu hm
  subst h1 h2 h3 hm
  simp [onAuthStateChanged, tripsEffectPending, syncLoading, loadingEffect, tripsEffect, hu]

theorem step_auth_none {s : Provider} (hq : Quiescent s) (hm : s.authListener = true)
    (hu : s.currentUser ≠ none) :
    step s (Event.authStateChanged none) =
      { s with currentUser := none, authLoading := false, userTrips := [],
               currentTrip := none, tripsLoading := false, tripsListener := none,
               tripsDeps := some none, loading := false,
               loadingDeps := some (false, false) } := by
  have hs : LoadingSynced (onAuthStateChanged none s) :=
    (loadingSynced_of_quiescent hq : LoadingSynced s)
  simp only [step, hm, if_true]
  rw [settle_eq _ hs]
  rcases s with ⟨cu, ct, ut, ld, al, tl, aL, tL, lc, td, ldp⟩
  obtain ⟨h1, h2, h3⟩ := hq
  simp only at h1 h2 h3 hu hm
  subst h1 h2 h3 hm
  simp [onAuthStateChanged, tripsEffectPending, syncLoading, loadingEffect, tripsEffect, hu]

theorem step_snapshot {s : Provider} (hq : Quiescent s) {n : Nat} {l : TripsListener}
    (hl : listening s n = some l) (docs : List Doc) :
    step s (Event.snapshot n docs) =
      { onSnapshot l docs s with loading := s.authLoading,
                                 loadingDeps := some (s.authLoading, false) } := by
  have hs : LoadingSynced (onSnapshot l docs s) :=
    (loadingSynced_of_quiescent hq : LoadingSynced s)
  simp only [step, hl]
  rw [settle_eq _ hs]
  rcases s with ⟨cu, ct, ut, ld, al, tl, aL, tL, lc, td, ldp⟩
  obtain ⟨h1, h2, h3⟩ := hq
  simp only at h1 h2 h3
  subst h1 h2 h3
  simp [onSnapshot, tripsEffectPending, syncLoading, loadingEffect]

theorem step_snapshotError {s : Provider} (hq : Quiescent s) {n : Nat} {l : TripsListener}
    (hl : listening s n = some l) :
    step s (Event.snapshotError n) =
      { s with tripsLoading := false, loading := s.authLoading,
               loadingDeps := some (s.authLoading, false) } := by
  have hs : LoadingSynced (onSnapshotError s) :=
    (loadingSynced_of_quiescent hq : LoadingSynced s)
  simp only [step, hl]
  rw [settle_eq _ hs]
  rcases s with ⟨cu, ct, ut, ld, al, tl, aL, tL, lc, td, ldp⟩
  obtain ⟨h1, h2, h3⟩ := hq
  simp only at h1 h2 h3
  subst h1 h2 h3
  simp [onSnapshotError, tripsEffectPending, syncLoading, loadingEffect]

theorem step_selectTrip {s : Provider} (hq : Quiescent s) (hm : s.authListener = true)
    (trip : Trip) :
    step s (Event.selectTrip trip) = { s with currentTrip := some trip } := by
  have hs : LoadingSynced (selectTrip trip s) :=
    (loadingSynced_of_quiescent hq : LoadingSynced s)
  simp only [step, hm, if_true]
  rw [settle_eq _ hs]
  rcases s with ⟨cu, ct, ut, ld, al, tl, aL, tL, lc, td, ldp⟩
  obtain ⟨h1, h2, h3⟩ := hq
  simp only at h1 h2 h3 hm
  subst h1 h2 h3 hm
  simp [selectTrip, tripsEffectPending, syncLoading, loadingEffect]

theorem step_snapshot_dropped {s : Provider} {n : Nat} (hl : listening s n = none)
    (docs : List Doc) : step s (Event.snapshot n docs) = s := by
  simp only [step, hl]

theorem step_snapshotError_dropped {s : Provider} {n : Nat} (hl : listening s n = none) :
    step s (Event.snapshotError n) = s := by
  simp only [step, hl]

theorem step_unmounted {s : Provider} (hm : s.authListener = false) (hl : s.tripsListener = none)
    (e : Event) : step s e = s := by
  cases e <;> simp [step, hm, hl, listening, unmount]
  rcases s with ⟨cu, ct, ut, ld, al, tl, aL, tL, lc, td, ldp⟩
  simp_all

/-! ### The invariant -/

theorem inv_mount : Inv mount := by
  constructor <;> simp [mount, settle, settleN, commitEffects, authEffect, firstRender,
    tripsEffectPending, loadingEffectPending, tripsEffect, loadingEffect, Quiescent]

theorem inv_step {s : Provider} (e : Event) (h : Inv s) : Inv (step s e) := by
  obtain ⟨hq, ha, ho, hl, hc⟩ := h
  have hq' := hq
  obtain ⟨h1, h2, h3⟩ := hq'
  cases e with
  | authStateChanged user =>
    by_cases hm : s.authListener = true
    · by_cases hu : user = s.currentUser
      · subst hu
        rw [step_auth_same hq hm]
        constructor
        · simp [Quiescent, h1]
        · simp
        · simpa using ho
        · simpa using hl
        · simpa using hc
      · cases user with
        | none =>
          rw [step_auth_none hq hm (Ne.symm hu)]
          constructor <;> simp [Quiescent]
        | some u =>
          rw [step_auth_some hq hm u (Ne.symm hu)]
          constructor <;> simp [Quiescent]
    · simp only [step, hm]
      exact ⟨hq, ha, ho, hl, hc⟩
  | snapshot n docs =>
    cases hn : listening s n with
    | none => rw [step_snapshot_dropped hn]; exact ⟨hq, ha, ho, hl, hc⟩
    | some l =>
      obtain ⟨hn1, hn2⟩ := listening_eq_some hn
      obtain ⟨hl1, u, hl2, hl3⟩ := hl l hn1
      rw [step_snapshot hq hn]
      constructor
      · simp [Quiescent, onSnapshot, h1]
      · simpa [onSnapshot] using ha
      · simp [onSnapshot, hl2]
      · simp only [onSnapshot]
        intro l' hl'
        exact hl l' hl'
      · simp only [onSnapshot]
        intro l' hl' hct
        rw [hn1] at hl'
        cases hl'
        by_cases hcap : l.currentTrip = none
        · exact hcap
        · simp only [hcap, and_false, if_false] at hct
          exact hc l hn1 hct
  | snapshotError n =>
    cases hn : listening s n with
    | none => rw [step_snapshotError_dropped hn]; exact ⟨hq, ha, ho, hl, hc⟩
    | some l =>
      obtain ⟨hn1, hn2⟩ := listening_eq_some hn
      obtain ⟨hl1, u, hl2, hl3⟩ := hl l hn1
      rw [step_snapshotError hq hn]
      constructor
      · simp [Quiescent, h1]
      · simpa using ha
      · simp [hl2]
      · simpa using hl
      · simpa using hc
  | selectTrip trip =>
    by_cases hm : s.authListener = true
    · rw [step_selectTrip hq hm]
      constructor
      · simpa [Quiescent] using hq
      · simpa using ha
      · simpa using ho
      · simpa using hl
      · simp
    · simp only [step, hm]
      exact ⟨hq, ha, ho, hl, hc⟩
  | unmount =>
    constructor
    · simpa [step, unmount, Quiescent] using hq
    · simpa [step, unmount] using ha
    · simp only [step, unmount]
      intro hu
      exact ⟨(ho hu).1, trivial, (ho hu).2.2⟩
    · simp [step, unmount]
    · simp [step, unmount]

theorem inv_of_reachable {s : Provider} (h : Reachable s) : Inv s := by
  induction h with
  | mount => exact inv_mount
  | step e _ ih => exact inv_step e ih

theorem runFrom_append (s : Provider) (es fs : List Event) :
    runFrom s (es ++ fs) = runFrom (runFrom s es) fs := by
  simp [runFrom, List.foldl_append]

theorem run_snoc (es : List Event) (e : Event) : run (es ++ [e]) = step (run es) e := by
  simp [run, runFrom, List.foldl_append]

theorem reachable_runFrom {s : Provider} (h : Reachable s) (es : List Event) :
    Reachable (runFrom s es) := by
  induction es generalizing s with
  | nil => exact h
  | cons e es ih => exact ih (Reachable.step e h)

theorem reachable_run (es : List Event) : Reachable (run es) :=
  reachable_runFrom Reachable.mount es

theorem inv_run (es : List Event) : Inv (run es) :=
  inv_of_reachable (reachable_run es)

/-! ## Selection -/

/-- C1: the claim is that an emission delivered while a trip is selected leaves
`currentTrip` unchanged.  The code does otherwise: the listener opened at
sign-in captured `currentTrip == null`, so with `T1` selected the emission
`[T2, T1]` selects `T2`, and after `selectTrip(T2)` the emission `[T1, T2]`,
which still contains `T2`, selects `T1`. -/
theorem emission_overrides_selection :
    (run [Event.authStateChanged (some u1), Event.snapshot 0 [docT1, docT2]]).currentTrip
        = some T1 ∧
    (run [Event.authStateChanged (some u1), Event.snapshot 0 [docT1, docT2],
          Event.snapshot 0 [docT2, docT1]]).currentTrip = some T2 ∧
    (run [Event.authStateChanged (some u1), Event.snapshot 0 [docT1, docT2],
          Event.selectTrip T2]).currentTrip = some T2 ∧
    (run [Event.authStateChanged (some u1), Event.snapshot 0 [docT1, docT2],
          Event.selectTrip T2, Event.snapshot 0 [docT1, docT2]]).currentTrip = some T1 ∧
    T1 ≠ T2 := by
  decide

/-- C2: in a reachable state with no trip selected, a non-empty emission of the
registered membership listener sets `currentTrip` to the first record of the
emitted list. -/
theorem autoSelect_first_when_unselected (es : List Event) (n : Nat) (l : TripsListener)
    (d : Doc) (ds : List Doc)
    (hl : listening (run es) n = some l) (hc : (run es).currentTrip = none) :
    (step (run es) (Event.snapshot n (d :: ds))).currentTrip = some d.toTrip ∧
    (step (run es) (Event.snapshot n (d :: ds))).userTrips = (d :: ds).map Doc.toTrip := by
  have hi := inv_run es
  have hcap := hi.captured l (listening_eq_some hl).1 hc
  rw [step_snapshot hi.quiescent hl]
  simp [onSnapshot, hcap]

/-- C2, at the list `[T1, T2]` delivered to the listener opened for `u1`. -/
theorem autoSelect_first_when_unselected_witness :
    (step (run [Event.authStateChanged (some u1)])
        (Event.snapshot 0 [docT1, docT2])).currentTrip = some T1 ∧
    (step (run [Event.authStateChanged (some u1)])
        (Event.snapshot 0 [docT1, docT2])).userTrips = [T1, T2] :=
  autoSelect_first_when_unselected [Event.authStateChanged (some u1)] 0
    { id := 0, uid := "u1", currentTrip := none } docT1 [docT2] (by decide) (by decide)

/-- C3: from the mounted provider, after the identity emits `{uid: "u1"}` the
listener for `u1` is registered and `loading` is true; its emission `[]` makes
`loading` false and leaves `currentTrip` null; its next emission
`[{id: "t1", name: "Paris"}]` selects the record with id `t1`. -/
theorem scenario_signIn_empty_then_paris :
    mount.loading = true ∧
    (run [Event.authStateChanged (some u1)]).loading = true ∧
    (run [Event.authStateChanged (some u1)]).tripsListener
        = some { id := 0, uid := "u1", currentTrip := none } ∧
    (run [Event.authStateChanged (some u1), Event.snapshot 0 []]).loading = false ∧
    (run [Event.authStateChanged (some u1), Event.snapshot 0 []]).currentTrip = none ∧
    (run [Event.authStateChanged (some u1), Event.snapshot 0 [],
          Event.snapshot 0 [docT1]]).currentTrip
        = some [("id", JsVal.str "t1"), ("name", JsVal.str "Paris")] ∧
    JsObject.get? [("id", JsVal.str "t1"), ("name", JsVal.str "Paris")] "id"
        = some (JsVal.str "t1") := by
  decide

/-! ## Sign-out -/

/-- C4: when the identity stream delivers `null` to a provider whose identity is
present, the state after the transition has an empty `userTrips`, no
`currentTrip` and `tripsLoading == false`, whatever they were before; the
membership listener is gone, so a callback of the previous identity that
arrives afterwards changes nothing. -/
theorem signOut_resets (es : List Event) (hm : (run es).authListener = true)
    (hu : (run es).currentUser ≠ none) :
    (step (run es) (Event.authStateChanged none)).currentUser = none ∧
    (step (run es) (Event.authStateChanged none)).userTrips = [] ∧
    (step (run es) (Event.authStateChanged none)).currentTrip = none ∧
    (step (run es) (Event.authStateChanged none)).tripsLoading = false ∧
    (∀ n docs, step (step (run es) (Event.authStateChanged none)) (Event.snapshot n docs)
        = step (run es) (Event.authStateChanged none)) ∧
    (∀ n, step (step (run es) (Event.authStateChanged none)) (Event.snapshotError n)
        = step (run es) (Event.authStateChanged none)) := by
  rw [step_auth_none (inv_run es).quiescent hm hu]
  refine ⟨rfl, rfl, rfl, rfl, ?_, ?_⟩
  · intro n docs
    apply step_snapshot_dropped
    rfl
  · intro n
    apply step_snapshotError_dropped
    rfl

/-- C4, for `u1` signing out with the trips `[T1, T2]` loaded and `T1` selected. -/
theorem signOut_resets_witness :
    (step (run [Event.authStateChanged (some u1), Event.snapshot 0 [docT1, docT2]])
        (Event.authStateChanged none)).currentUser = none ∧
    (step (run [Event.authStateChanged (some u1), Event.snapshot 0 [docT1, docT2]])
        (Event.authStateChanged none)).userTrips = [] ∧
    (step (run [Event.authStateChanged (some u1), Event.snapshot 0 [docT1, docT2]])
        (Event.authStateChanged none)).currentTrip = none ∧
    (step (run [Event.authStateChanged (some u1), Event.snapshot 0 [docT1, docT2]])
        (Event.authStateChanged none)).tripsLoading = false :=
  have h := signOut_resets [Event.authStateChanged (some u1), Event.snapshot 0 [docT1, docT2]]
    (by decide) (by decide)
  ⟨h.1, h.2.1, h.2.2.1, h.2.2.2.1⟩

/-- C7: in every reachable state in which the identity is absent, `userTrips`
is the empty list (and no membership listener is registered, so no emission
can fill it while the identity stays absent). -/
theorem userTrips_empty_when_signedOut (es : List Event)
    (h : (run es).currentUser = none) :
    (run es).userTrips = [] ∧ (run es).tripsListener = none ∧
    ∀ n docs, (step (run es) (Event.snapshot n docs)).userTrips = [] := by
  have hi := (inv_run es).signedOut h
  refine ⟨hi.1, hi.2.1, ?_⟩
  intro n docs
  rw [step_snapshot_dropped (by simp [listening, hi.2.1])]
  exact hi.1

/-- C7, after `u1` has loaded `[T1, T2]` and signed out. -/
theorem userTrips_empty_when_signedOut_witness :
    (run [Event.authStateChanged (some u1), Event.snapshot 0 [docT1, docT2],
          Event.authStateChanged none]).userTrips = [] :=
  (userTrips_empty_when_signedOut
    [Event.authStateChanged (some u1), Event.snapshot 0 [docT1, docT2],
     Event.authStateChanged none] (by decide)).1

/-! ## The loading flag -/

/-- C8: after every event has been processed (no effect is pending any more),
the exposed `loading` equals `authLoading || tripsLoading`: it is true exactly
when identity resolution or membership resolution is pending. -/
theorem loading_eq_authLoading_or_tripsLoading (es : List Event) :
    (run es).loading = ((run es).authLoading || (run es).tripsLoading) ∧
    ((run es).loading = true ↔
      ((run es).authLoading = true ∨ (run es).tripsLoading = true)) ∧
    tripsEffectPending (run es) = false ∧ loadingEffectPending (run es) = false := by
  obtain ⟨h1, h2, h3⟩ := (inv_run es).quiescent
  refine ⟨h3, ?_, ?_, ?_⟩
  · rw [h3]; simp
  · simp [tripsEffectPending, h1]
  · simp [loadingEffectPending, h2]

/-- Inside the processing of one event the flag is one commit behind: in the
commit that follows the sign-in of `u1` the trips effect has set `tripsLoading`
while `loading` still holds the value computed before; the next commit brings
it up to date. -/
theorem loading_one_commit_behind :
    (commitEffects (onAuthStateChanged (some u1)
        (run [Event.authStateChanged none]))).tripsLoading = true ∧
    (commitEffects (onAuthStateChanged (some u1)
        (run [Event.authStateChanged none]))).loading = false ∧
    (settle (onAuthStateChanged (some u1)
        (run [Event.authStateChanged none]))).loading = true := by
  decide

/-- C10 fails as stated: when `u1` signs out, the transition leaves `loading`
false. -/
theorem loading_false_after_signOut :
    (run [Event.authStateChanged (some u1), Event.snapshot 0 [docT1]]).currentUser
        = some u1 ∧
    (step (run [Event.authStateChanged (some u1), Event.snapshot 0 [docT1]])
        (Event.authStateChanged none)).currentUser = none ∧
    (step (run [Event.authStateChanged (some u1), Event.snapshot 0 [docT1]])
        (Event.authStateChanged none)).loading = false := by
  decide

/-- C10, amended: once an identity transition has been processed, `loading` is
true when the new identity is present (from absent, or from another identity)
and false when it is absent. -/
theorem loading_after_transition (es : List Event) (user : Option User)
    (hm : (run es).authListener = true) (hu : user ≠ (run es).currentUser) :
    (step (run es) (Event.authStateChanged user)).currentUser = user ∧
    (step (run es) (Event.authStateChanged user)).loading = user.isSome := by
  have hq := (inv_run es).quiescent
  cases user with
  | none =>
    rw [step_auth_none hq hm (Ne.symm hu)]
    exact ⟨rfl, rfl⟩
  | some u =>
    rw [step_auth_some hq hm u (Ne.symm hu)]
    exact ⟨rfl, rfl⟩

/-- C10 amended, at the direct change from `u1` to `u2`. -/
theorem loading_after_transition_witness :
    (step (run [Event.authStateChanged (some u1), Event.snapshot 0 [docT1]])
        (Event.authStateChanged (some u2))).currentUser = some u2 ∧
    (step (run [Event.authStateChanged (some u1), Event.snapshot 0 [docT1]])
        (Event.authStateChanged (some u2))).loading = true :=
  loading_after_transition [Event.authStateChanged (some u1), Event.snapshot 0 [docT1]]
    (some u2) (by decide) (by decide)

/-! ## The selection and the list -/

/-- C6 fails as stated: when the selected trip leaves the list, the selection
stays. -/
theorem selection_outlives_removal :
    (run [Event.authStateChanged (some u1), Event.snapshot 0 [docT1],
          Event.snapshot 0 []]).currentTrip = some T1 ∧
    (run [Event.authStateChanged (some u1), Event.snapshot 0 [docT1],
          Event.snapshot 0 []]).userTrips = [] ∧
    ¬ SelectionValid (run [Event.authStateChanged (some u1), Event.snapshot 0 [docT1],
          Event.snapshot 0 []]) := by
  refine ⟨by decide, by decide, ?_⟩
  intro h
  have h1 := h T1 (by decide)
  revert h1
  decide

theorem selectionValid_step {s : Provider} (hi : Inv s) (hv : SelectionValid s) (e : Event)
    (hk : keepsSelection s e = true) : SelectionValid (step s e) := by
  have hq := hi.quiescent
  cases e with
  | authStateChanged user =>
    by_cases hm : s.authListener = true
    · by_cases hu : user = s.currentUser
      · subst hu
        rw [step_auth_same hq hm]
        exact hv
      · cases user with
        | none =>
          rw [step_auth_none hq hm (Ne.symm hu)]
          intro t ht
          cases ht
        | some u =>
          rw [step_auth_some hq hm u (Ne.symm hu)]
          exact hv
    · simp only [step, hm]
      exact hv
  | snapshot n docs =>
    cases hn : listening s n with
    | none => rw [step_snapshot_dropped hn]; exact hv
    | some l =>
      rw [step_snapshot hq hn]
      intro t ht
      simp only [onSnapshot] at ht ⊢
      split at ht
      · exact List.mem_of_mem_head? ht
      · simp only [keepsSelection, ht, hn, Option.isNone_some, Bool.false_or,
          decide_eq_true_eq] at hk
        exact hk
  | snapshotError n =>
    cases hn : listening s n with
    | none => rw [step_snapshotError_dropped hn]; exact hv
    | some l =>
      rw [step_snapshotError hq hn]
      exact hv
  | selectTrip trip =>
    by_cases hm : s.authListener = true
    · rw [step_selectTrip hq hm]
      intro t ht
      simp only [Option.some.injEq] at ht
      subst ht
      simpa [keepsSelection] using hk
    · simp only [step, hm]
      exact hv
  | unmount => exact hv

theorem selectionValid_runFrom {s : Provider} (hi : Inv s) (hv : SelectionValid s)
    (es : List Event) (hd : Disciplined s es = true) : SelectionValid (runFrom s es) := by
  induction es generalizing s with
  | nil => exact hv
  | cons e es ih =>
    simp only [Disciplined, Bool.and_eq_true] at hd
    exact ih (inv_step e hi) (selectionValid_step hi hv e hd.1) hd.2

/-- C6, amended: along every sequence of events in which `selectTrip` is called
only with an element of `userTrips` and every delivered membership emission
still contains the selected trip, `currentTrip` is null or an element of
`userTrips` in the state reached. -/
theorem selection_valid_when_disciplined (es : List Event)
    (hd : Disciplined mount es = true) : SelectionValid (run es) := by
  have hv : SelectionValid mount := by
    intro t ht
    have h0 : mount.currentTrip = none := by decide
    rw [h0] at ht
    cases ht
  exact selectionValid_runFrom inv_mount hv es hd

/-- C6 amended, along: `u1` signs in, `[T1, T2]` arrives, `T2` is selected,
`[T2, T1]` arrives, `u1` signs out. -/
theorem selection_valid_when_disciplined_witness :
    SelectionValid (run [Event.authStateChanged (some u1), Event.snapshot 0 [docT1, docT2],
      Event.selectTrip T2, Event.snapshot 0 [docT2, docT1], Event.authStateChanged none]) :=
  selection_valid_when_disciplined
    [Event.authStateChanged (some u1), Event.snapshot 0 [docT1, docT2],
      Event.selectTrip T2, Event.snapshot 0 [docT2, docT1], Event.authStateChanged none]
    (by decide)

/-! ## Histories -/

theorem run_take_snoc {es : List Event} (e : Event) {j : Nat} (h : j ≤ es.length) :
    run ((es ++ [e]).take j) = run (es.take j) := by
  rw [List.take_append_of_le_length h]

theorem run_take_snoc_all (es : List Event) (e : Event) :
    run ((es ++ [e]).take (es.length + 1)) = step (run es) e := by
  rw [List.take_of_length_le (by simp), run_snoc]

theorem identityEmittedAt_snoc {es : List Event} (e : Event) {k : Nat} (h : k < es.length) :
    identityEmittedAt (es ++ [e]) k = identityEmittedAt es k := by
  simp only [identityEmittedAt, List.getElem?_append_left h,
    List.take_append_of_le_length (Nat.le_of_lt h)]

theorem emissionAt_snoc {es : List Event} (e : Event) {k : Nat} (h : k < es.length) :
    emissionAt (es ++ [e]) k = emissionAt es k := by
  simp only [emissionAt, List.getElem?_append_left h,
    List.take_append_of_le_length (Nat.le_of_lt h)]

theorem resultAt_snoc {es : List Event} (e : Event) {k : Nat} (h : k < es.length) :
    resultAt (es ++ [e]) k = resultAt es k := by
  simp only [resultAt, List.getElem?_append_left h,
    List.take_append_of_le_length (Nat.le_of_lt h)]

theorem identityEmittedAt_last (es : List Event) (user : Option User) :
    identityEmittedAt (es ++ [Event.authStateChanged user]) es.length
      = (run es).authListener := by
  simp [identityEmittedAt, List.take_left]

theorem emissionAt_last (es : List Event) (n : Nat) (docs : List Doc) :
    emissionAt (es ++ [Event.snapshot n docs]) es.length
      = (listening (run es) n).map (fun l => (l, docs)) := by
  simp [emissionAt, List.take_left]

theorem resultAt_last_snapshot (es : List Event) (n : Nat) (docs : List Doc) :
    resultAt (es ++ [Event.snapshot n docs]) es.length = listening (run es) n := by
  simp [resultAt, List.take_left]

theorem resultAt_last_error (es : List Event) (n : Nat) :
    resultAt (es ++ [Event.snapshotError n]) es.length = listening (run es) n := by
  simp [resultAt, List.take_left]

theorem identitySince_snoc {es : List Event} {e : Event} {k : Nat} {u : User}
    (h : IdentitySince es k u) (hu : (step (run es) e).currentUser = some u) :
    IdentitySince (es ++ [e]) k u := by
  intro j hkj hj
  by_cases hle : j ≤ es.length
  · rw [run_take_snoc e hle]
    exact h j hkj hle
  · have hj' : j = es.length + 1 := by
      simp only [List.length_append, List.length_singleton] at hj
      omega
    subst hj'
    rw [run_take_snoc_all]
    exact hu

theorem resolvedSince_snoc {es : List Event} {e : Event} {u : User}
    (h : ResolvedSince es u) (hu : (step (run es) e).currentUser = some u) :
    ResolvedSince (es ++ [e]) u := by
  obtain ⟨k, hk, l, hr, hl, hs⟩ := h
  refine ⟨k, ?_, l, ?_, hl, identitySince_snoc hs hu⟩
  · simp only [List.length_append, List.length_singleton]
    omega
  · rw [resultAt_snoc e hk]
    exact hr

theorem resolvedSince_last {es : List Event} {e : Event} {u : User} {l : TripsListener}
    (hr : resultAt (es ++ [e]) es.length = some l) (hl : l.uid = u.uid)
    (h0 : (run es).currentUser = some u) (hu : (step (run es) e).currentUser = some u) :
    ResolvedSince (es ++ [e]) u := by
  refine ⟨es.length, by simp, l, hr, hl, ?_⟩
  intro j hkj hj
  have hj' : j = es.length ∨ j = es.length + 1 := by
    simp only [List.length_append, List.length_singleton] at hj
    omega
  rcases hj' with rfl | rfl
  · rw [run_take_snoc e le_rfl, List.take_length]
    exact h0
  · rw [run_take_snoc_all]
    exact hu

theorem identityEmitted_snoc {es : List Event} (e : Event)
    (h : ∃ k, k < es.length ∧ identityEmittedAt es k = true) :
    ∃ k, k < (es ++ [e]).length ∧ identityEmittedAt (es ++ [e]) k = true := by
  obtain ⟨k, hk, hi⟩ := h
  refine ⟨k, ?_, ?_⟩
  · simp only [List.length_append, List.length_singleton]
    omega
  · rw [identityEmittedAt_snoc e hk]
    exact hi

/-- What the resolution flags say about the history: `authLoading` is false only
after an identity emission, and with an identity present `tripsLoading` is
false only after a result of its membership listener. -/
theorem resolution_history (es : List Event) :
    ((run es).authLoading = false →
      ∃ k, k < es.length ∧ identityEmittedAt es k = true) ∧
    (∀ u, (run es).currentUser = some u → (run es).tripsLoading = false →
      ResolvedSince es u) := by
  induction es using List.reverseRecOn with
  | nil =>
    constructor
    · intro h
      have h0 : (run []).authLoading = true := by decide
      rw [h0] at h
      cases h
    · intro u h
      have h0 : (run []).currentUser = none := by decide
      rw [h0] at h
      cases h
  | append_singleton es e ih =>
    obtain ⟨ih1, ih2⟩ := ih
    have hi := inv_run es
    have hq := hi.quiescent
    have keep : step (run es) e = run es →
        ((run (es ++ [e])).authLoading = false →
          ∃ k, k < (es ++ [e]).length ∧ identityEmittedAt (es ++ [e]) k = true) ∧
        (∀ u, (run (es ++ [e])).currentUser = some u →
          (run (es ++ [e])).tripsLoading = false → ResolvedSince (es ++ [e]) u) := by
      intro hs
      rw [run_snoc, hs]
      refine ⟨fun h => identityEmitted_snoc e (ih1 h), fun u hu ht => ?_⟩
      exact resolvedSince_snoc (ih2 u hu ht) (by rw [hs]; exact hu)
    cases e with
    | authStateChanged user =>
      by_cases hm : (run es).authListener = true
      · constructor
        · intro _
          exact ⟨es.length, by simp, by rw [identityEmittedAt_last]; exact hm⟩
        · intro u hu ht
          rw [run_snoc] at hu ht
          by_cases hsame : user = (run es).currentUser
          · subst hsame
            have hu' := hu
            rw [step_auth_same hq hm] at hu' ht
            exact resolvedSince_snoc (ih2 u hu' ht) hu
          · cases user with
            | none =>
              rw [step_auth_none hq hm (Ne.symm hsame)] at hu
              cases hu
            | some v =>
              rw [step_auth_some hq hm v (Ne.symm hsame)] at ht
              cases ht
      · exact keep (by simp only [step, hm]; rfl)
    | snapshot n docs =>
      cases hn : listening (run es) n with
      | none => exact keep (step_snapshot_dropped hn docs)
      | some l =>
        obtain ⟨hl1, v, hv, hlv⟩ := hi.listener l (listening_eq_some hn).1
        constructor
        · intro h
          rw [run_snoc, step_snapshot hq hn] at h
          exact identityEmitted_snoc _ (ih1 h)
        · intro u hu _
          rw [run_snoc] at hu
          have hu' := hu
          rw [step_snapshot hq hn] at hu'
          have huv : (run es).currentUser = some u := hu'
          have hvu : v = u := by
            rw [hv] at huv
            exact Option.some.inj huv
          subst hvu
          exact resolvedSince_last (by rw [resultAt_last_snapshot]; exact hn) hlv hv hu
    | snapshotError n =>
      cases hn : listening (run es) n with
      | none => exact keep (step_snapshotError_dropped hn)
      | some l =>
        obtain ⟨hl1, v, hv, hlv⟩ := hi.listener l (listening_eq_some hn).1
        constructor
        · intro h
          rw [run_snoc, step_snapshotError hq hn] at h
          exact identityEmitted_snoc _ (ih1 h)
        · intro u hu _
          rw [run_snoc] at hu
          have hu' := hu
          rw [step_snapshotError hq hn] at hu'
          have huv : (run es).currentUser = some u := hu'
          have hvu : v = u := by
            rw [hv] at huv
            exact Option.some.inj huv
          subst hvu
          exact resolvedSince_last (by rw [resultAt_last_error]; exact hn) hlv hv hu
    | selectTrip trip =>
      by_cases hm : (run es).authListener = true
      · constructor
        · intro h
          rw [run_snoc, step_selectTrip hq hm] at h
          exact identityEmitted_snoc _ (ih1 h)
        · intro u hu ht
          rw [run_snoc] at hu ht
          have hu' := hu
          rw [step_selectTrip hq hm] at hu' ht
          exact resolvedSince_snoc (ih2 u hu' ht) hu
      · exact keep (by simp only [step, hm]; rfl)
    | unmount =>
      constructor
      · intro h
        rw [run_snoc] at h
        exact identityEmitted_snoc _ (ih1 h)
      · intro u hu ht
        rw [run_snoc] at hu ht
        exact resolvedSince_snoc (ih2 u hu ht) hu

/-- C9 fails as stated: after `u1` signs in and the membership query fails,
`loading` is false with the identity present although the membership stream of
`u1` has not emitted. -/
theorem loading_false_without_emission :
    (run errorHistory).loading = false ∧
    (run errorHistory).currentUser = some u1 ∧
    ¬ EmittedSince errorHistory u1 := by
  refine ⟨by decide, by decide, ?_⟩
  rintro ⟨k, hk, l, docs, he, -, -⟩
  have hnone : ∀ k, k < errorHistory.length → emissionAt errorHistory k = none := by
    decide
  rw [hnone k hk] at he
  cases he

/-- C9, amended: `loading` is false in a state only if the identity stream has
emitted and, when the identity is present, the membership listener of that
identity has emitted or reported an error since the last identity
transition. -/
theorem loading_false_only_after_resolution (es : List Event)
    (h : (run es).loading = false) :
    (∃ k, k < es.length ∧ identityEmittedAt es k = true) ∧
    (∀ u, (run es).currentUser = some u → ResolvedSince es u) := by
  have h3 := (inv_run es).quiescent.2.2
  rw [h3, Bool.or_eq_false_iff] at h
  obtain ⟨h1, h2⟩ := resolution_history es
  exact ⟨h1 h.1, fun u hu => h2 u hu h.2⟩

/-- C9 amended, after `u1` has signed in and the membership query has failed. -/
theorem loading_false_only_after_resolution_witness :
    (∃ k, k < errorHistory.length ∧ identityEmittedAt errorHistory k = true) ∧
    (∀ u, (run errorHistory).currentUser = some u → ResolvedSince errorHistory u) :=
  loading_false_only_after_resolution errorHistory (by decide)

/-! ## Where the exposed list comes from -/

theorem payload_history (es : List Event) :
    (run es).userTrips = [] ∨
    ∃ k, k < es.length ∧ PayloadAt es k (run (es.take k)).currentUser := by
  induction es using List.reverseRecOn with
  | nil => exact Or.inl (by decide)
  | append_singleton es e ih =>
    have hi := inv_run es
    have hq := hi.quiescent
    have keep : (step (run es) e).userTrips = (run es).userTrips →
        ((run (es ++ [e])).userTrips = [] ∨
          ∃ k, k < (es ++ [e]).length ∧
            PayloadAt (es ++ [e]) k (run ((es ++ [e]).take k)).currentUser) := by
      intro hs
      rcases ih with h | ⟨k, hk, l, docs, u, he, hp, hu, hl⟩
      · left
        rw [run_snoc, hs]
        exact h
      · right
        refine ⟨k, ?_, l, docs, u, ?_, ?_, ?_, hl⟩
        · simp only [List.length_append, List.length_singleton]
          omega
        · rw [emissionAt_snoc e hk]
          exact he
        · rw [run_snoc, hs]
          exact hp
        · rw [run_take_snoc e (Nat.le_of_lt hk)]
          exact hu
    cases e with
    | authStateChanged user =>
      by_cases hm : (run es).authListener = true
      · by_cases hsame : user = (run es).currentUser
        · subst hsame
          exact keep (by rw [step_auth_same hq hm])
        · cases user with
          | none =>
            left
            rw [run_snoc, step_auth_none hq hm (Ne.symm hsame)]
          | some v => exact keep (by rw [step_auth_some hq hm v (Ne.symm hsame)])
      · exact keep (by simp only [step, hm]; rfl)
    | snapshot n docs =>
      cases hn : listening (run es) n with
      | none => exact keep (by rw [step_snapshot_dropped hn])
      | some l =>
        obtain ⟨hl1, v, hv, hlv⟩ := hi.listener l (listening_eq_some hn).1
        right
        refine ⟨es.length, by simp, l, docs, v, ?_, ?_, ?_, hlv⟩
        · rw [emissionAt_last, hn]
          rfl
        · rw [run_snoc, step_snapshot hq hn]
          rfl
        · rw [run_take_snoc _ le_rfl, List.take_length]
          exact hv
    | snapshotError n =>
      cases hn : listening (run es) n with
      | none => exact keep (by rw [step_snapshotError_dropped hn])
      | some l => exact keep (by rw [step_snapshotError hq hn])
    | selectTrip trip =>
      by_cases hm : (run es).authListener = true
      · exact keep (by rw [step_selectTrip hq hm])
      · exact keep (by simp only [step, hm]; rfl)
    | unmount => exact keep rfl

/-- C5 fails as stated: after the identity changes directly from `u1` to `u2`,
the list delivered for `u1` is exposed together with `currentUser == u2`, and it
is the payload of no emission of a listener keyed to `u2`. -/
theorem stale_list_after_identity_switch :
    (run switchHistory).currentUser = some u2 ∧
    (run switchHistory).userTrips = [T1] ∧
    ¬ ((run switchHistory).userTrips = [] ∨
        ∃ k, k < switchHistory.length ∧
          PayloadAt switchHistory k (run switchHistory).currentUser) := by
  refine ⟨by decide, by decide, ?_⟩
  rintro (h | ⟨k, hk, l, docs, u, he, -, hu, hl⟩)
  · revert h
    decide
  · have hcur : (run switchHistory).currentUser = some u2 := by decide
    rw [hcur] at hu
    cases hu
    have hkey : ∀ k, k < switchHistory.length →
        (emissionAt switchHistory k).map (fun p => p.1.uid) ≠ some "u2" := by
      decide
    apply hkey k hk
    rw [he]
    exact congrArg some hl

/-! ### After a direct change of identity -/

theorem listening_other {s : Provider} {n k : Nat}
    (hl : ∀ l, s.tripsListener = some l → l.id = n) (hk : k ≠ n) :
    listening s k = none := by
  unfold listening
  cases h : s.tripsListener with
  | none => rfl
  | some l =>
    have hid := hl l h
    simp [hid, Ne.symm hk]

theorem switch_step {s : Provider} {L : List Trip} {u : User} {n : Nat} (hi : Inv s)
    (hu : s.currentUser = some u) (hL : s.userTrips = L)
    (hl : ∀ l, s.tripsListener = some l → l.id = n) (e : Event)
    (hv : ∀ v, e = Event.authStateChanged v → v = some u)
    (hs : ∀ docs, e ≠ Event.snapshot n docs) :
    ((step s e).currentUser = some u ∧ (step s e).userTrips = L ∧
      ∀ l, (step s e).tripsListener = some l → l.id = n) ∧
    (s.tripsLoading = true → e ≠ Event.snapshotError n →
      (step s e).tripsLoading = true) ∧
    ((∃ l, s.tripsListener = some l ∧ l.id = n) → e ≠ Event.unmount →
      ∃ l, (step s e).tripsListener = some l ∧ l.id = n) := by
  have hq := hi.quiescent
  by_cases hun : e = Event.unmount
  · subst hun
    refine ⟨⟨hu, hL, fun l h => ?_⟩, fun h _ => h, fun _ h => absurd rfl h⟩
    simp [step, unmount] at h
  · have key : (step s e).currentUser = s.currentUser ∧
        (step s e).userTrips = s.userTrips ∧
        (step s e).tripsListener = s.tripsListener ∧
        (e ≠ Event.snapshotError n → (step s e).tripsLoading = s.tripsLoading) := by
      cases e with
      | authStateChanged v =>
        by_cases hm : s.authListener = true
        · have hv' := hv v rfl
          rw [hv', ← hu, step_auth_same hq hm]
          exact ⟨rfl, rfl, rfl, fun _ => rfl⟩
        · have hd : step s (Event.authStateChanged v) = s := by
            simp only [step, hm]
            rfl
          rw [hd]
          exact ⟨rfl, rfl, rfl, fun _ => rfl⟩
      | snapshot k docs =>
        have hk : k ≠ n := fun h => hs docs (by rw [h])
        rw [step_snapshot_dropped (listening_other hl hk)]
        exact ⟨rfl, rfl, rfl, fun _ => rfl⟩
      | snapshotError k =>
        cases hn : listening s k with
        | none =>
          rw [step_snapshotError_dropped hn]
          exact ⟨rfl, rfl, rfl, fun _ => rfl⟩
        | some l =>
          rw [step_snapshotError hq hn]
          refine ⟨rfl, rfl, rfl, fun hne => absurd ?_ hne⟩
          have h1 := listening_eq_some hn
          rw [← h1.2, hl l h1.1]
      | selectTrip trip =>
        by_cases hm : s.authListener = true
        · rw [step_selectTrip hq hm]
          exact ⟨rfl, rfl, rfl, fun _ => rfl⟩
        · have hd : step s (Event.selectTrip trip) = s := by
            simp only [step, hm]
            rfl
          rw [hd]
          exact ⟨rfl, rfl, rfl, fun _ => rfl⟩
      | unmount => exact absurd rfl hun
    obtain ⟨h1, h2, h3, h4⟩ := key
    exact ⟨⟨h1.trans hu, h2.trans hL, fun l h => hl l (h3 ▸ h)⟩,
      fun ht hne => (h4 hne).trans ht,
      fun ⟨l, h, hid⟩ _ => ⟨l, h3.trans h, hid⟩⟩

theorem switch_runFrom {L : List Trip} {u : User} {n : Nat} (fs : List Event) :
    ∀ s : Provider, Inv s → s.currentUser = some u → s.userTrips = L →
    (∀ l, s.tripsListener = some l → l.id = n) →
    (∀ e ∈ fs, (∀ v, e = Event.authStateChanged v → v = some u) ∧
      ∀ docs, e ≠ Event.snapshot n docs) →
    Inv (runFrom s fs) ∧ (runFrom s fs).currentUser = some u ∧
    (runFrom s fs).userTrips = L ∧
    (s.tripsLoading = true → (∀ e ∈ fs, e ≠ Event.snapshotError n) →
      (runFrom s fs).tripsLoading = true) ∧
    ((∃ l, s.tripsListener = some l ∧ l.id = n) → (∀ e ∈ fs, e ≠ Event.unmount) →
      ∃ l, (runFrom s fs).tripsListener = some l ∧ l.id = n) := by
  induction fs with
  | nil =>
    intro s hi hu hL _ _
    exact ⟨hi, hu, hL, fun h _ => h, fun h _ => h⟩
  | cons e fs ih =>
    intro s hi hu hL hl hfs
    have he := hfs e (List.mem_cons_self e fs)
    obtain ⟨⟨h1, h2, h3⟩, h4, h5⟩ := switch_step hi hu hL hl e he.1 he.2
    obtain ⟨i1, i2, i3, i4, i5⟩ := ih (step s e) (inv_step e hi) h1 h2 h3
      (fun x hx => hfs x (List.mem_cons_of_mem e hx))
    refine ⟨i1, i2, i3, fun ht hne => ?_, fun hr hne => ?_⟩
    · exact i4 (h4 ht (hne e (List.mem_cons_self e fs)))
        (fun x hx => hne x (List.mem_cons_of_mem e hx))
    · exact i5 (h5 hr (hne e (List.mem_cons_self e fs)))
        (fun x hx => hne x (List.mem_cons_of_mem e hx))

/-- C5, amended: in every reachable state `userTrips` is empty or the payload of
an emission made by a listener keyed to the uid of the identity that was
current when the emission was delivered; the only registered listener is keyed
to the uid of the current identity (the old one is torn down first); the list
is empty when the identity is absent.  A direct change to another identity `u`
does not clear the list: right after the change the list of the previous
identity is exposed with `loading` true and the listener of `u` registered; it
stays exposed, with `currentUser == u`, through every later sequence of events
`fs` in which the listener of `u` delivers no snapshot and the identity stream
emits nothing but `u`; `loading` stays true as long as, in addition, the
listener of `u` reports no error.  While the provider is mounted, an error of
the listener of `u` then sets `loading` to false with the list of the previous
identity still exposed, and a snapshot of the listener of `u` replaces the
list. -/
theorem userTrips_provenance (es : List Event) :
    ((run es).userTrips = [] ∨
      ∃ k, k < es.length ∧ PayloadAt es k (run (es.take k)).currentUser) ∧
    (∀ l, (run es).tripsListener = some l →
      ∃ u, (run es).currentUser = some u ∧ l.uid = u.uid) ∧
    ((run es).currentUser = none → (run es).userTrips = []) ∧
    (∀ u, (run es).authListener = true → (run es).currentUser ≠ some u →
      (step (run es) (Event.authStateChanged (some u))).userTrips = (run es).userTrips ∧
      (step (run es) (Event.authStateChanged (some u))).loading = true ∧
      (step (run es) (Event.authStateChanged (some u))).tripsListener =
        some { id := (run es).listenerCount, uid := u.uid,
               currentTrip := (run es).currentTrip }) ∧
    (∀ u fs, (run es).authListener = true → (run es).currentUser ≠ some u →
      (∀ e ∈ fs, (∀ v, e = Event.authStateChanged v → v = some u) ∧
        ∀ docs, e ≠ Event.snapshot (run es).listenerCount docs) →
      (runFrom (step (run es) (Event.authStateChanged (some u))) fs).userTrips =
        (run es).userTrips ∧
      (runFrom (step (run es) (Event.authStateChanged (some u))) fs).currentUser =
        some u ∧
      ((∀ e ∈ fs, e ≠ Event.snapshotError (run es).listenerCount) →
        (runFrom (step (run es) (Event.authStateChanged (some u))) fs).loading = true ∧
        ((∀ e ∈ fs, e ≠ Event.unmount) →
          (step (runFrom (step (run es) (Event.authStateChanged (some u))) fs)
            (Event.snapshotError (run es).listenerCount)).userTrips =
              (run es).userTrips ∧
          (step (runFrom (step (run es) (Event.authStateChanged (some u))) fs)
            (Event.snapshotError (run es).listenerCount)).currentUser = some u ∧
          (step (runFrom (step (run es) (Event.authStateChanged (some u))) fs)
            (Event.snapshotError (run es).listenerCount)).loading = false ∧
          ∀ docs,
            (step (runFrom (step (run es) (Event.authStateChanged (some u))) fs)
              (Event.snapshot (run es).listenerCount docs)).userTrips =
                docs.map Doc.toTrip))) := by
  have hi := inv_run es
  refine ⟨payload_history es, fun l hl => (hi.listener l hl).2,
    fun h => (hi.signedOut h).1, fun u hm hu => ?_, fun u fs hm hu hfs => ?_⟩
  · rw [step_auth_some hi.quiescent hm u hu]
    exact ⟨rfl, rfl, rfl⟩
  · have hi0 := inv_step (Event.authStateChanged (some u)) hi
    have h0 := step_auth_some hi.quiescent hm u hu
    have c1 : (step (run es) (Event.authStateChanged (some u))).currentUser = some u := by
      rw [h0]
    have c2 : (step (run es) (Event.authStateChanged (some u))).userTrips =
        (run es).userTrips := by
      rw [h0]
    have c3 : (step (run es) (Event.authStateChanged (some u))).tripsListener =
        some { id := (run es).listenerCount, uid := u.uid,
               currentTrip := (run es).currentTrip } := by
      rw [h0]
    have c4 : (step (run es) (Event.authStateChanged (some u))).tripsLoading = true := by
      rw [h0]
    have c5 : ∀ l, (step (run es) (Event.authStateChanged (some u))).tripsListener = some l →
        l.id = (run es).listenerCount := by
      intro l hl
      rw [c3] at hl
      cases hl
      rfl
    obtain ⟨j1, j2, j3, j4, j5⟩ := switch_runFrom fs _ hi0 c1 c2 c5 hfs
    refine ⟨j3, j2, fun hne => ?_⟩
    have tl := j4 c4 hne
    have hq := j1.quiescent
    refine ⟨by rw [hq.2.2, tl, Bool.or_true], fun hun => ?_⟩
    obtain ⟨l, hl, hid⟩ := j5 ⟨_, c3, rfl⟩ hun
    have hn : listening (runFrom (step (run es) (Event.authStateChanged (some u))) fs)
        (run es).listenerCount = some l := by
      unfold listening
      rw [hl]
      simp [hid]
    have hal : (runFrom (step (run es) (Event.authStateChanged (some u))) fs).authLoading =
        false := by
      cases h : (runFrom (step (run es) (Event.authStateChanged (some u))) fs).authLoading with
      | false => rfl
      | true =>
        have hnone := j1.authPending h
        rw [j2] at hnone
        cases hnone
    refine ⟨?_, ?_, ?_, fun docs => ?_⟩
    · rw [step_snapshotError hq hn]
      exact j3
    · rw [step_snapshotError hq hn]
      exact j2
    · rw [step_snapshotError hq hn]
      exact hal
    · rw [step_snapshot hq hn]
      rfl

/-- C5, for `u1` with the list `[T1]` loaded and a direct change to `u2`
followed by a selection, a late emission of the listener of `u1` and a repeated
emission of `u2`: the list `[T1]` stays exposed with `currentUser == u2` and
`loading` true; an error of the listener of `u2` then sets `loading` to false
with `[T1]` still exposed, and a snapshot of that listener replaces the list. -/
theorem userTrips_provenance_witness :
    (run loadedHistory).authListener = true ∧
    (run loadedHistory).currentUser ≠ some u2 ∧
    (runFrom (step (run loadedHistory) (Event.authStateChanged (some u2)))
      quietEvents).userTrips = [T1] ∧
    (runFrom (step (run loadedHistory) (Event.authStateChanged (some u2)))
      quietEvents).currentUser = some u2 ∧
    (runFrom (step (run loadedHistory) (Event.authStateChanged (some u2)))
      quietEvents).loading = true ∧
    (step (runFrom (step (run loadedHistory) (Event.authStateChanged (some u2)))
      quietEvents) (Event.snapshotError 1)).userTrips = [T1] ∧
    (step (runFrom (step (run loadedHistory) (Event.authStateChanged (some u2)))
      quietEvents) (Event.snapshotError 1)).currentUser = some u2 ∧
    (step (runFrom (step (run loadedHistory) (Event.authStateChanged (some u2)))
      quietEvents) (Event.snapshotError 1)).loading = false ∧
    (step (runFrom (step (run loadedHistory) (Event.authStateChanged (some u2)))
      quietEvents) (Event.snapshot 1 [docT2])).userTrips = [T2] :=
  have hn : (run loadedHistory).listenerCount = 1 := by decide
  have hq : ∀ e ∈ quietEvents,
      (∀ v, e = Event.authStateChanged v → v = some u2) ∧
      ∀ docs, e ≠ Event.snapshot (run loadedHistory).listenerCount docs := by
    rw [hn]
    intro e he
    simp only [quietEvents, List.mem_cons, List.mem_singleton, List.mem_nil_iff,
      or_false] at he
    rcases he with rfl | rfl | rfl
    · exact ⟨fun v h => (by cases h), fun docs h => (by cases h)⟩
    · exact ⟨fun v h => (by cases h), fun docs h => (by simp at h)⟩
    · exact ⟨fun v h => (by cases h; rfl), fun docs h => (by cases h)⟩
  have he : ∀ e ∈ quietEvents, e ≠ Event.snapshotError (run loadedHistory).listenerCount := by
    decide
  have hu : ∀ e ∈ quietEvents, e ≠ Event.unmount := by decide
  have h := (userTrips_provenance loadedHistory).2.2.2.2 u2 quietEvents (by decide)
    (by decide) hq
  ⟨by decide, by decide, h.1, h.2.1, (h.2.2 he).1, ((h.2.2 he).2 hu).1,
    ((h.2.2 he).2 hu).2.1, ((h.2.2 he).2 hu).2.2.1, ((h.2.2 he).2 hu).2.2.2 [docT2]⟩

/-! ## Membership errors -/

/-- C11: when the registered membership listener reports an error, the state
after the error has `tripsLoading == false` (so `loading` is `authLoading`) and
the same `userTrips`, `currentTrip` and `currentUser` as before.  The callback
is a total function of the state: nothing is thrown out of it. -/
theorem membershipError_resolves_and_keeps_data (es : List Event) (n : Nat)
    (l : TripsListener) (hl : listening (run es) n = some l) :
    (step (run es) (Event.snapshotError n)).tripsLoading = false ∧
    (step (run es) (Event.snapshotError n)).loading = (run es).authLoading ∧
    (step (run es) (Event.snapshotError n)).userTrips = (run es).userTrips ∧
    (step (run es) (Event.snapshotError n)).currentTrip = (run es).currentTrip ∧
    (step (run es) (Event.snapshotError n)).currentUser = (run es).currentUser := by
  rw [step_snapshotError (inv_run es).quiescent hl]
  exact ⟨rfl, rfl, rfl, rfl, rfl⟩

/-- C11, for an error of the listener of `u1` after `[T1, T2]` was loaded. -/
theorem membershipError_resolves_and_keeps_data_witness :
    (step (run [Event.authStateChanged (some u1), Event.snapshot 0 [docT1, docT2]])
        (Event.snapshotError 0)).tripsLoading = false ∧
    (step (run [Event.authStateChanged (some u1), Event.snapshot 0 [docT1, docT2]])
        (Event.snapshotError 0)).userTrips = [T1, T2] ∧
    (step (run [Event.authStateChanged (some u1), Event.snapshot 0 [docT1, docT2]])
        (Event.snapshotError 0)).currentTrip = some T1 :=
  have h := membershipError_resolves_and_keeps_data
    [Event.authStateChanged (some u1), Event.snapshot 0 [docT1, docT2]] 0
    { id := 0, uid := "u1", currentTrip := none } (by decide)
  ⟨h.1, h.2.2.1, h.2.2.2.1⟩

/-- C12 fails as stated: the value exposed after a membership error is equal to
the value exposed after a successful emission that leaves the same list in
place. -/
theorem membershipError_not_observable :
    (run [Event.authStateChanged (some u1), Event.snapshot 0 [docT1],
          Event.snapshotError 0]).value =
    (run [Event.authStateChanged (some u1), Event.snapshot 0 [docT1],
          Event.snapshot 0 [docT1]]).value := by
  decide

/-- C12, amended: a membership error is not observable through the context
value.  After an error of the registered listener the value is the one before
the error with `loading` set to `authLoading`, and it equals the value exposed
after a successful emission that leaves the same list and the same selection
in place. -/
theorem membershipError_value (es : List Event) (n : Nat) (l : TripsListener)
    (hl : listening (run es) n = some l) :
    (step (run es) (Event.snapshotError n)).value =
      { (run es).value with loading := (run es).authLoading } ∧
    ∀ docs : List Doc, docs.map Doc.toTrip = (run es).userTrips →
      (step (run es) (Event.snapshot n docs)).currentTrip = (run es).currentTrip →
      (step (run es) (Event.snapshotError n)).value =
        (step (run es) (Event.snapshot n docs)).value := by
  have hq := (inv_run es).quiescent
  constructor
  · rw [step_snapshotError hq hl]
    rfl
  · intro docs hd hc
    have hc' := hc
    rw [step_snapshot hq hl] at hc'
    rw [step_snapshotError hq hl, step_snapshot hq hl]
    simp only [Provider.value, onSnapshot, ContextValue.mk.injEq, true_and, and_true]
    simp only [onSnapshot] at hc'
    exact ⟨hc'.symm, hd.symm⟩

/-- C12 amended, for an error of the listener of `u1` after `[T1]` was loaded. -/
theorem membershipError_value_witness :
    (step (run [Event.authStateChanged (some u1), Event.snapshot 0 [docT1]])
        (Event.snapshotError 0)).value =
      { (run [Event.authStateChanged (some u1), Event.snapshot 0 [docT1]]).value with
        loading := (run [Event.authStateChanged (some u1),
                         Event.snapshot 0 [docT1]]).authLoading } :=
  (membershipError_value [Event.authStateChanged (some u1), Event.snapshot 0 [docT1]] 0
    { id := 0, uid := "u1", currentTrip := none } (by decide)).1

/-! ## selectTrip -/

/-- C13: on a mounted provider `selectTrip(trip)` sets `currentTrip` to exactly
its argument, whether or not it is an element of `userTrips`, and leaves
`currentUser`, `userTrips`, `authLoading`, `tripsLoading` and `loading` (and the
listeners) as they were. -/
theorem selectTrip_sets_only_currentTrip (es : List Event) (trip : Trip)
    (hm : (run es).authListener = true) :
    step (run es) (Event.selectTrip trip) = { run es with currentTrip := some trip } ∧
    (step (run es) (Event.selectTrip trip)).currentTrip = some trip ∧
    (step (run es) (Event.selectTrip trip)).currentUser = (run es).currentUser ∧
    (step (run es) (Event.selectTrip trip)).userTrips = (run es).userTrips ∧
    (step (run es) (Event.selectTrip trip)).authLoading = (run es).authLoading ∧
    (step (run es) (Event.selectTrip trip)).tripsLoading = (run es).tripsLoading ∧
    (step (run es) (Event.selectTrip trip)).loading = (run es).loading := by
  rw [step_selectTrip (inv_run es).quiescent hm]
  exact ⟨rfl, rfl, rfl, rfl, rfl, rfl, rfl⟩

/-- C13, for a trip that is not in the list `[T1, T2]` of `u1`. -/
theorem selectTrip_sets_only_currentTrip_witness :
    T9 ∉ (run [Event.authStateChanged (some u1),
               Event.snapshot 0 [docT1, docT2]]).userTrips ∧
    (step (run [Event.authStateChanged (some u1), Event.snapshot 0 [docT1, docT2]])
        (Event.selectTrip T9)).currentTrip = some T9 ∧
    (step (run [Event.authStateChanged (some u1), Event.snapshot 0 [docT1, docT2]])
        (Event.selectTrip T9)).userTrips = [T1, T2] :=
  have h := selectTrip_sets_only_currentTrip
    [Event.authStateChanged (some u1), Event.snapshot 0 [docT1, docT2]] T9 (by decide)
  ⟨by decide, h.2.1, h.2.2.2.1⟩

/-! ## Superseded listeners and shutdown -/

/-- C14: on a mounted, signed-out provider, when the identity emits `u` the
listener for `u` is registered; when the identity becomes absent before that
listener has emitted, the listener is torn down, and an emission (or error) of
it that arrives afterwards is dropped: the state still has `userTrips == []`
and `currentTrip == null`. -/
theorem superseded_emission_discarded (es : List Event) (u : User) (n : Nat)
    (docs : List Doc) (hm : (run es).authListener = true)
    (hu : (run es).currentUser = none) :
    (run (es ++ [Event.authStateChanged (some u)])).tripsListener =
      some { id := (run es).listenerCount, uid := u.uid,
             currentTrip := (run es).currentTrip } ∧
    (run (es ++ [Event.authStateChanged (some u),
                 Event.authStateChanged none])).tripsListener = none ∧
    run (es ++ [Event.authStateChanged (some u), Event.authStateChanged none,
                Event.snapshot n docs]) =
      run (es ++ [Event.authStateChanged (some u), Event.authStateChanged none]) ∧
    (run (es ++ [Event.authStateChanged (some u), Event.authStateChanged none,
                 Event.snapshot n docs])).userTrips = [] ∧
    (run (es ++ [Event.authStateChanged (some u), Event.authStateChanged none,
                 Event.snapshot n docs])).currentTrip = none := by
  have hq := (inv_run es).quiescent
  have hne : (run es).currentUser ≠ some u := by
    rw [hu]
    exact fun h => Option.noConfusion h
  have h1 : run (es ++ [Event.authStateChanged (some u)]) =
      step (run es) (Event.authStateChanged (some u)) := run_snoc es _
  have h2 : run (es ++ [Event.authStateChanged (some u), Event.authStateChanged none]) =
      step (step (run es) (Event.authStateChanged (some u)))
        (Event.authStateChanged none) := by
    simp [run, runFrom, List.foldl_append]
  have h3 : run (es ++ [Event.authStateChanged (some u), Event.authStateChanged none,
      Event.snapshot n docs]) =
      step (step (step (run es) (Event.authStateChanged (some u)))
        (Event.authStateChanged none)) (Event.snapshot n docs) := by
    simp [run, runFrom, List.foldl_append]
  have hi1 : Inv (step (run es) (Event.authStateChanged (some u))) :=
    inv_step _ (inv_run es)
  have e1 := step_auth_some hq hm u hne
  have hm1 : (step (run es) (Event.authStateChanged (some u))).authListener = true := by
    rw [e1]
    exact hm
  have hu1 : (step (run es) (Event.authStateChanged (some u))).currentUser ≠ none := by
    rw [e1]
    exact fun h => Option.noConfusion h
  have e2 := step_auth_none hi1.quiescent hm1 hu1
  have hdrop : step (step (step (run es) (Event.authStateChanged (some u)))
        (Event.authStateChanged none)) (Event.snapshot n docs) =
      step (step (run es) (Event.authStateChanged (some u)))
        (Event.authStateChanged none) := by
    apply step_snapshot_dropped
    rw [e2]
    rfl
  refine ⟨?_, ?_, ?_, ?_, ?_⟩
  · rw [h1, e1]
  · rw [h2, e2]
  · rw [h3, h2, hdrop]
  · rw [h3, hdrop, e2]
  · rw [h3, hdrop, e2]

/-- C14, for `u1` on the freshly mounted provider after the first `null` of
the identity stream. -/
theorem superseded_emission_discarded_witness :
    (run ([Event.authStateChanged none] ++ [Event.authStateChanged (some u1),
        Event.authStateChanged none, Event.snapshot 0 [docT1]])).userTrips = [] ∧
    (run ([Event.authStateChanged none] ++ [Event.authStateChanged (some u1),
        Event.authStateChanged none, Event.snapshot 0 [docT1]])).currentTrip = none :=
  have h := superseded_emission_discarded [Event.authStateChanged none] u1 0 [docT1]
    (by decide) (by decide)
  ⟨h.2.2.2.1, h.2.2.2.2⟩

theorem runFrom_unmounted {s : Provider} (hm : s.authListener = false)
    (hl : s.tripsListener = none) (fs : List Event) : runFrom s fs = s := by
  induction fs with
  | nil => rfl
  | cons e fs ih =>
    show runFrom (step s e) fs = s
    rw [step_unmounted hm hl e]
    exact ih

/-- C16: after the provider is unmounted both listeners are cancelled, and no
later event (identity emission, membership emission or error, `selectTrip`)
changes any field of the state. -/
theorem unmount_cancels_and_freezes (es fs : List Event) :
    (step (run es) Event.unmount).authListener = false ∧
    (step (run es) Event.unmount).tripsListener = none ∧
    runFrom (step (run es) Event.unmount) fs = step (run es) Event.unmount :=
  ⟨rfl, rfl, runFrom_unmounted rfl rfl fs⟩

/-! ## The records of a snapshot -/

theorem JsObject.get?_set (o : JsObject) (k : String) (v : JsVal) (k' : String) :
    JsObject.get? (JsObject.set o k v) k' = if k = k' then some v else JsObject.get? o k' := by
  induction o with
  | nil => simp [JsObject.set, JsObject.get?]
  | cons p rest ih =>
    obtain ⟨k1, v1⟩ := p
    by_cases h1 : k1 = k
    · subst h1
      by_cases h2 : k1 = k' <;> simp [JsObject.set, JsObject.get?, h2]
    · by_cases h2 : k1 = k'
      · subst h2
        simp [JsObject.set, JsObject.get?, h1, Ne.symm h1]
      · simp [JsObject.set, JsObject.get?, h1, h2, ih]

theorem JsObject.get?_eq_none {o : JsObject} {k : String}
    (h : k ∉ JsObject.fieldNames o) : JsObject.get? o k = none := by
  induction o with
  | nil => rfl
  | cons p rest ih =>
    obtain ⟨k1, v1⟩ := p
    simp only [JsObject.fieldNames, List.map_cons, List.mem_cons, not_or] at h
    simp only [JsObject.get?, Ne.symm h.1, if_false]
    exact ih h.2

theorem JsObject.get?_spread (o src : JsObject) (hs : (JsObject.fieldNames src).Nodup)
    (k : String) :
    JsObject.get? (JsObject.spread o src) k =
      match JsObject.get? src k with
      | some v => some v
      | none => JsObject.get? o k := by
  induction src generalizing o with
  | nil => rfl
  | cons p rest ih =>
    obtain ⟨k1, v1⟩ := p
    simp only [JsObject.fieldNames, List.map_cons, List.nodup_cons] at hs
    have hrest := ih (JsObject.set o k1 v1) hs.2
    simp only [JsObject.spread, List.foldl_cons] at hrest ⊢
    rw [hrest]
    by_cases h1 : k1 = k
    · subst h1
      rw [JsObject.get?_eq_none hs.1]
      simp [JsObject.get?, JsObject.get?_set]
    · simp [JsObject.get?, JsObject.get?_set, h1]

theorem JsObject.set_of_not_mem {o : JsObject} {k : String} (v : JsVal)
    (h : k ∉ JsObject.fieldNames o) : JsObject.set o k v = o ++ [(k, v)] := by
  induction o with
  | nil => rfl
  | cons p rest ih =>
    obtain ⟨k1, v1⟩ := p
    simp only [JsObject.fieldNames, List.map_cons, List.mem_cons, not_or] at h
    simp only [JsObject.set, Ne.symm h.1, if_false, List.cons_append]
    rw [ih h.2]

theorem JsObject.spread_eq_append (o src : JsObject)
    (hs : (JsObject.fieldNames src).Nodup)
    (hd : ∀ k ∈ JsObject.fieldNames src, k ∉ JsObject.fieldNames o) :
    JsObject.spread o src = o ++ src := by
  induction src generalizing o with
  | nil => simp [JsObject.spread]
  | cons p rest ih =>
    obtain ⟨k1, v1⟩ := p
    simp only [JsObject.fieldNames, List.map_cons, List.nodup_cons] at hs
    have hk1 : k1 ∉ JsObject.fieldNames o := hd k1 (by simp [JsObject.fieldNames])
    have hstep : JsObject.spread o ((k1, v1) :: rest) =
        JsObject.spread (JsObject.set o k1 v1) rest := rfl
    rw [hstep, JsObject.set_of_not_mem v1 hk1, ih (o ++ [(k1, v1)]) hs.2]
    · simp
    · intro k hk
      simp only [JsObject.fieldNames, List.map_append, List.map_cons, List.map_nil,
        List.mem_append, List.mem_singleton, not_or]
      refine ⟨hd k (by simp [JsObject.fieldNames]; right; simpa [JsObject.fieldNames] using hk), ?_⟩
      rintro rfl
      exact hs.1 hk

/-- C15 fails as stated: a document whose data has a field named `id` yields a
record whose `id` is that field, not the id of the document. -/
theorem record_id_shadowed_by_data :
    (run [Event.authStateChanged (some u1), Event.snapshot 0 [docShadow]]).userTrips
      = [[("id", JsVal.str "other"), ("name", JsVal.str "Oslo")]] ∧
    JsObject.get? docShadow.toTrip "id" = some (JsVal.str "other") ∧
    JsObject.get? docShadow.toTrip "id" ≠ some (JsVal.str docShadow.id) := by
  decide

/-- C15, amended: after a snapshot with documents `d1..dn` is delivered,
`userTrips` is the list of the `n` records built from them, in the same order
and whatever `userTrips` was before.  The record of `di` has the fields of the
data of `di`; its `id` is the id of the document when the data has no field
named `id`, and the data's own `id` field otherwise. -/
theorem snapshot_replaces_userTrips (es : List Event) (n : Nat) (l : TripsListener)
    (docs : List Doc) (hl : listening (run es) n = some l) :
    (step (run es) (Event.snapshot n docs)).userTrips = docs.map Doc.toTrip ∧
    (step (run es) (Event.snapshot n docs)).userTrips.length = docs.length ∧
    (∀ i : Nat, (step (run es) (Event.snapshot n docs)).userTrips[i]? =
      (docs[i]?).map Doc.toTrip) ∧
    (∀ d ∈ docs, (JsObject.fieldNames d.data).Nodup →
      ∀ k, JsObject.get? d.toTrip k =
        match JsObject.get? d.data k with
        | some v => some v
        | none => if k = "id" then some (JsVal.str d.id) else none) ∧
    (∀ d ∈ docs, (JsObject.fieldNames d.data).Nodup →
      "id" ∉ JsObject.fieldNames d.data →
      d.toTrip = ("id", JsVal.str d.id) :: d.data) := by
  have hu : (step (run es) (Event.snapshot n docs)).userTrips = docs.map Doc.toTrip := by
    rw [step_snapshot (inv_run es).quiescent hl]
    rfl
  refine ⟨hu, ?_, ?_, ?_, ?_⟩
  · rw [hu, List.length_map]
  · intro i
    rw [hu, List.getElem?_map]
  · intro d _ hn k
    rw [Doc.toTrip, JsObject.get?_spread _ _ hn]
    cases JsObject.get? d.data k with
    | some v => rfl
    | none =>
      by_cases hk : k = "id"
      · subst hk
        simp [JsObject.get?]
      · simp [JsObject.get?, hk, Ne.symm hk]
  · intro d _ hn hid
    rw [Doc.toTrip, JsObject.spread_eq_append _ _ hn]
    · rfl
    · intro k hk
      simp only [JsObject.fieldNames, List.map_cons, List.map_nil, List.mem_singleton]
      rintro rfl
      exact hid hk

/-- C15 amended, for the documents `t1`, `t2` replacing the list `[T2]`. -/
theorem snapshot_replaces_userTrips_witness :
    (run [Event.authStateChanged (some u1), Event.snapshot 0 [docT2]]).userTrips = [T2] ∧
    (step (run [Event.authStateChanged (some u1), Event.snapshot 0 [docT2]])
        (Event.snapshot 0 [docT1, docT2])).userTrips = [docT1, docT2].map Doc.toTrip ∧
    [docT1, docT2].map Doc.toTrip = [T1, T2] :=
  ⟨by decide,
   (snapshot_replaces_userTrips
      [Event.authStateChanged (some u1), Event.snapshot 0 [docT2]] 0
      { id := 0, uid := "u1", currentTrip := none } [docT1, docT2] (by decide)).1,
   by decide⟩

/-! ## The invite code -/

theorem bitLengthAux_spec (fuel n : Nat) (h : n ≤ fuel) :
    n < 2 ^ bitLengthAux fuel n ∧ (n ≠ 0 → 2 ^ (bitLengthAux fuel n - 1) ≤ n) := by
  induction fuel generalizing n with
  | zero =>
    have hn : n = 0 := by omega
    subst hn
    simp [bitLengthAux]
  | succ fuel ih =>
    by_cases hn : n = 0
    · subst hn
      simp [bitLengthAux]
    · have h2 : n / 2 ≤ fuel := by omega
      obtain ⟨h3, h4⟩ := ih (n / 2) h2
      simp only [bitLengthAux, hn, if_false, Nat.add_sub_cancel]
      constructor
      · rw [pow_succ]
        omega
      · intro _
        by_cases h5 : n / 2 = 0
        · have hz : bitLengthAux fuel (n / 2) = 0 := by
            rw [h5]
            cases fuel <;> simp [bitLengthAux]
          rw [hz]
          simp
          omega
        · have h6 := h4 h5
          have h7 : bitLengthAux fuel (n / 2) ≠ 0 := by
            intro h0
            rw [h0] at h3
            simp at h3
            exact h5 h3
          obtain ⟨b, hb⟩ := Nat.exists_eq_succ_of_ne_zero h7
          rw [hb] at h6 ⊢
          simp only [Nat.succ_eq_add_one, Nat.add_sub_cancel] at h6
          rw [pow_succ]
          omega

theorem roundHalfEven_lt (n s : Nat) (hs : s ≤ 6) (hn : n ≤ 36 * 2 ^ 53 - 36)
    (hnb : n < 2 ^ (53 + s)) : roundHalfEven n s < 36 * 2 ^ (53 - s) := by
  unfold roundHalfEven
  interval_cases s <;> norm_num at hn hnb ⊢ <;> split_ifs <;> omega

theorem randomIndex_lt (d : Draw) (hv : d.valid) : randomIndex d 36 < 36 := by
  obtain ⟨hm, hk1, _⟩ := hv
  have hn : d.m * 36 ≤ 36 * 2 ^ 53 - 36 := by
    norm_num at hm ⊢
    omega
  obtain ⟨hb1, hb2⟩ := bitLengthAux_spec (d.m * 36) (d.m * 36) le_rfl
  have hb59 : bitLength (d.m * 36) ≤ 59 := by
    by_contra hc
    have h60 : 60 ≤ bitLength (d.m * 36) := by omega
    by_cases h0 : d.m * 36 = 0
    · rw [h0] at h60
      revert h60
      decide
    · have h1 := hb2 h0
      have h2 : 2 ^ 59 ≤ 2 ^ (bitLengthAux (d.m * 36) (d.m * 36) - 1) :=
        Nat.pow_le_pow_right (by norm_num) (by unfold bitLength at h60; omega)
      norm_num at hn h2
      omega
  have hs : excessBits (d.m * 36) ≤ 6 := by
    unfold excessBits
    omega
  have hnb : d.m * 36 < 2 ^ (53 + excessBits (d.m * 36)) :=
    lt_of_lt_of_le hb1 (Nat.pow_le_pow_right (by norm_num)
      (by unfold excessBits bitLength; omega))
  have hr := roundHalfEven_lt _ _ hs hn hnb
  have hp : 2 ^ (53 - excessBits (d.m * 36)) ≤ 2 ^ (d.k - excessBits (d.m * 36)) :=
    Nat.pow_le_pow_right (by norm_num) (by omega)
  unfold randomIndex
  simp only
  rw [if_pos (by omega), Nat.div_lt_iff_lt_mul (by positivity)]
  calc roundHalfEven (d.m * 36) (excessBits (d.m * 36))
      < 36 * 2 ^ (53 - excessBits (d.m * 36)) := hr
    _ ≤ 36 * 2 ^ (d.k - excessBits (d.m * 36)) := Nat.mul_le_mul_left 36 hp

theorem chars_length : chars.length = 36 := by
  decide

theorem charAt_of_lt {s : List Char} {i : Nat} (h : i < s.length) :
    ∃ c, c ∈ s ∧ charAt s i = [c] := by
  refine ⟨s[i], List.getElem_mem h, ?_⟩
  simp [charAt, List.getElem?_eq_getElem h]

theorem appendChars_spec (random : Nat → Draw) (is : List Nat)
    (hv : ∀ i ∈ is, (random i).valid) (acc : List Char) :
    (is.foldl (fun code i => code ++ charAt chars (randomIndex (random i) chars.length))
        acc).length = acc.length + is.length ∧
    ∀ c ∈ is.foldl
        (fun code i => code ++ charAt chars (randomIndex (random i) chars.length)) acc,
      c ∈ acc ∨ c ∈ chars := by
  induction is generalizing acc with
  | nil => exact ⟨rfl, fun c hc => Or.inl hc⟩
  | cons i rest ih =>
    have hlt : randomIndex (random i) chars.length < chars.length := by
      rw [chars_length]
      exact randomIndex_lt _ (hv i (List.mem_cons_self i rest))
    obtain ⟨c0, hc0, hat⟩ := charAt_of_lt hlt
    obtain ⟨h1, h2⟩ := ih (fun j hj => hv j (List.mem_cons_of_mem i hj))
      (acc ++ charAt chars (randomIndex (random i) chars.length))
    have hl : (acc ++ charAt chars (randomIndex (random i) chars.length)).length =
        acc.length + 1 := by
      rw [hat, List.length_append, List.length_singleton]
    simp only [List.foldl_cons]
    constructor
    · rw [h1, hl, List.length_cons]
      omega
    · intro c hc
      rcases h2 c hc with h | h
      · rw [hat] at h
        rcases List.mem_append.1 h with h | h
        · exact Or.inl h
        · right
          rw [List.mem_singleton.1 h]
          exact hc0
      · exact Or.inr h

/-- C17: for every sequence of six doubles in `[0, 1)` returned by
`Math.random()`, each index `Math.floor(r * 36)` is below 36, and
`generateInviteCode` returns a string of exactly 6 characters, each taken from
the alphabet and so an uppercase letter `A`-`Z` or a digit `0`-`9`. -/
theorem generateInviteCode_six_alphanumeric (random : Nat → Draw)
    (hv : ∀ i, i < 6 → (random i).valid) :
    (∀ i, i < 6 → randomIndex (random i) chars.length < chars.length) ∧
    (generateInviteCode random).length = 6 ∧
    (∀ c ∈ generateInviteCode random, c ∈ chars) ∧
    (∀ c ∈ generateInviteCode random, c.isUpper = true ∨ c.isDigit = true) := by
  have hv' : ∀ i ∈ List.range 6, (random i).valid :=
    fun i hi => hv i (List.mem_range.1 hi)
  obtain ⟨h1, h2⟩ := appendChars_spec random (List.range 6) hv' []
  have hmem : ∀ c ∈ generateInviteCode random, c ∈ chars := by
    intro c hc
    rcases h2 c hc with h | h
    · cases h
    · exact h
  have halpha : ∀ c ∈ chars, c.isUpper = true ∨ c.isDigit = true := by
    decide
  refine ⟨?_, ?_, hmem, fun c hc => halpha c (hmem c hc)⟩
  · intro i hi
    rw [chars_length]
    exact randomIndex_lt _ (hv i hi)
  · rw [generateInviteCode, h1]
    simp

/-- C17, when every draw is the largest double below `1`: the index is `35`
and the code is `999999`. -/
theorem generateInviteCode_six_alphanumeric_witness :
    randomIndex largestDraw chars.length = 35 ∧
    generateInviteCode (fun _ => largestDraw) = "999999".toList ∧
    (generateInviteCode (fun _ => largestDraw)).length = 6 :=
  have hv : largestDraw.valid := ⟨by decide, by decide, by decide⟩
  ⟨by decide, by decide,
   (generateInviteCode_six_alphanumeric (fun _ => largestDraw) (fun _ _ => hv)).2.1⟩

/-! ## Joining a trip by code -/

theorem jsTrim_sublist (s : List Char) : List.Sublist (jsTrim s) s := by
  unfold jsTrim
  have h1 : List.Sublist ((s.dropWhile isJsWhitespace).reverse.dropWhile isJsWhitespace)
      (s.dropWhile isJsWhitespace).reverse := List.dropWhile_sublist _
  have h2 := List.reverse_sublist.2 h1
  rw [List.reverse_reverse] at h2
  exact h2.trans (List.dropWhile_sublist _)

theorem jsLength_trim_le (s : List Char) : jsLength (jsTrim s) ≤ jsLength s := by
  unfold jsLength
  exact List.Sublist.sum_le_sum ((jsTrim_sublist s).map _) (fun _ _ => Nat.zero_le _)

theorem validateCode_rejects_short (code : List Char) (h : jsLength code < 6) :
    validateCode code = false := by
  have h1 := jsLength_trim_le code
  simp only [validateCode, decide_eq_false_iff_not, ge_iff_le, not_le]
  omega

/-- C19: the claim, like the comment of `validateCode`, is that a code is
accepted exactly when it is alphanumeric and has six or more characters.  The
code tests the trimmed length only: `!!!!!!` has no alphanumeric character and
is accepted, and `handleJoin` goes on to query the backend with it. -/
theorem validateCode_accepts_non_alphanumeric :
    validateCode "!!!!!!".toList = true ∧
    (∀ c ∈ "!!!!!!".toList, c.isAlphanum = false) ∧
    (handleJoin [] "!!!!!!".toList (some u1) backendOk).outcome
      = JoinOutcome.invalidCode := by
  decide

/-- C18 fails as stated: a code of three characters that equals the invite
code of a trip exactly is refused and the user is not made a member; and a code
with white space around it, which equals no invite code exactly, still joins
the trip whose invite code is the trimmed text. -/
theorem handleJoin_validates_and_trims :
    shortCodeTrip.inviteCode = "ABC".toList ∧
    handleJoin [shortCodeTrip] "ABC".toList (some u1) backendOk =
      { trips := [shortCodeTrip], outcome := JoinOutcome.invalidFormat } ∧
    isMember shortCodeTrip u1.uid = false ∧
    (∀ t ∈ [tripABCDEF, tripQRSTUV], t.inviteCode ≠ " ABCDEF ".toList) ∧
    (handleJoin [tripABCDEF, tripQRSTUV] " ABCDEF ".toList (some u1) backendOk).trips
      ≠ [tripABCDEF, tripQRSTUV] := by
  decide

theorem id_eq_iff_of_nodup {trips : List TripDoc}
    (hids : (trips.map TripDoc.id).Nodup) {t x : TripDoc} (ht : t ∈ trips)
    (hx : x ∈ trips) : x.id = t.id ↔ x = t :=
  ⟨fun h => List.inj_on_of_nodup_map hids hx ht h, fun h => by rw [h]⟩

theorem arrayUnion_of_not_member {t : TripDoc} {uid : String}
    (h : isMember t uid = false) :
    arrayUnion uid t = { t with members := some (t.members.getD [] ++ [uid]) } := by
  unfold isMember at h
  unfold arrayUnion
  cases hm : t.members with
  | none => simp
  | some ms =>
    rw [hm] at h
    simp only [decide_eq_false_iff_not] at h
    simp [h]

/-- C18, amended: for every trip collection with distinct document ids, entered
code and signed-in user `u`, when the backend calls succeed.  If the trimmed
code has fewer than six characters, an error is reported and no trip is
changed.  Otherwise the trips whose `inviteCode` equals the trimmed code are
looked up: if there is none, an error is reported and no trip is changed; if
`u` is already a member of the first one, nothing is changed; otherwise `u` is
appended to the members of that trip, its other members and fields and every
other trip staying as they were.  In both cases `u` is a member of the first
matching trip afterwards. -/
theorem handleJoin_spec (trips : List TripDoc) (code : List Char) (u : User)
    (hids : (trips.map TripDoc.id).Nodup) :
    (jsLength (jsTrim code) < 6 →
      (handleJoin trips code (some u) backendOk).trips = trips ∧
      (handleJoin trips code (some u) backendOk).outcome.isError = true) ∧
    (6 ≤ jsLength (jsTrim code) → (∀ t ∈ trips, t.inviteCode ≠ jsTrim code) →
      handleJoin trips code (some u) backendOk =
        { trips := trips, outcome := JoinOutcome.invalidCode }) ∧
    (6 ≤ jsLength (jsTrim code) → ∀ t,
      (trips.filter (fun t => decide (t.inviteCode = jsTrim code))).head? = some t →
      (isMember t u.uid = true →
        handleJoin trips code (some u) backendOk =
          { trips := trips, outcome := JoinOutcome.alreadyMember }) ∧
      (isMember t u.uid = false →
        handleJoin trips code (some u) backendOk =
          { trips := trips.map (fun x =>
              if x = t then { t with members := some (t.members.getD [] ++ [u.uid]) }
              else x),
            outcome := JoinOutcome.joined }) ∧
      ∃ t' ∈ (handleJoin trips code (some u) backendOk).trips,
        t'.id = t.id ∧ isMember t' u.uid = true) := by
  refine ⟨?_, ?_, ?_⟩
  · intro hlen
    have hv : validateCode code = false := by
      simp only [validateCode, decide_eq_false_iff_not, ge_iff_le, not_le]
      exact hlen
    unfold handleJoin
    by_cases he : jsTrim code = []
    · simp [he, JoinOutcome.isError]
    · simp [he, hv, JoinOutcome.isError]
  · intro hlen hnone
    have hv : validateCode code = true := by
      simp only [validateCode, decide_eq_true_eq]
      exact hlen
    have he : jsTrim code ≠ [] := by
      intro h0
      rw [h0] at hlen
      simp [jsLength] at hlen
    have hf : trips.filter (fun t => decide (t.inviteCode = jsTrim code)) = [] := by
      rw [List.filter_eq_nil_iff]
      intro t ht
      simpa using hnone t ht
    unfold handleJoin
    simp [he, hv, hf, backendOk]
  · intro hlen t hhead
    have hv : validateCode code = true := by
      simp only [validateCode, decide_eq_true_eq]
      exact hlen
    have he : jsTrim code ≠ [] := by
      intro h0
      rw [h0] at hlen
      simp [jsLength] at hlen
    obtain ⟨rest, hf⟩ : ∃ rest,
        trips.filter (fun t => decide (t.inviteCode = jsTrim code)) = t :: rest := by
      cases hl : trips.filter (fun t => decide (t.inviteCode = jsTrim code)) with
      | nil => rw [hl] at hhead; cases hhead
      | cons a rest =>
        rw [hl] at hhead
        simp only [List.head?_cons, Option.some.injEq] at hhead
        exact ⟨rest, by rw [hhead]⟩
    have ht : t ∈ trips := by
      have hmem : t ∈ trips.filter (fun t => decide (t.inviteCode = jsTrim code)) := by
        rw [hf]
        exact List.mem_cons_self t rest
      exact (List.mem_filter.1 hmem).1
    have hjoin : isMember t u.uid = false →
        handleJoin trips code (some u) backendOk =
          { trips := trips.map (fun x =>
              if x = t then { t with members := some (t.members.getD [] ++ [u.uid]) }
              else x),
            outcome := JoinOutcome.joined } := by
      intro hm
      unfold handleJoin
      simp only [he, hv, hf, backendOk, hm, if_false, Bool.false_eq_true, updateDoc,
        Bool.true_eq_false, JoinResult.mk.injEq, and_true]
      apply List.map_congr_left
      intro x hx
      by_cases hxt : x = t
      · subst hxt
        simp [arrayUnion_of_not_member hm]
      · have hne : ¬ x.id = t.id := fun h => hxt ((id_eq_iff_of_nodup hids ht hx).1 h)
        simp [hxt, hne]
    have hkeep : isMember t u.uid = true →
        handleJoin trips code (some u) backendOk =
          { trips := trips, outcome := JoinOutcome.alreadyMember } := by
      intro hm
      unfold handleJoin
      simp [he, hv, hf, backendOk, hm]
    refine ⟨hkeep, hjoin, ?_⟩
    cases hm : isMember t u.uid with
    | true =>
      rw [hkeep hm]
      exact ⟨t, ht, rfl, hm⟩
    | false =>
      rw [hjoin hm]
      refine ⟨{ t with members := some (t.members.getD [] ++ [u.uid]) }, ?_, rfl, ?_⟩
      · apply List.mem_map.2
        exact ⟨t, ht, by simp⟩
      · simp [isMember]

/-- C18 amended, for `u1` entering the code of the second of three trips with
white space around it. -/
theorem handleJoin_spec_witness :
    handleJoin [shortCodeTrip, tripABCDEF, tripQRSTUV] " ABCDEF ".toList (some u1)
        backendOk =
      { trips := [shortCodeTrip, tripABCDEF, tripQRSTUV].map (fun x =>
          if x = tripABCDEF then
            { tripABCDEF with members := some (tripABCDEF.members.getD [] ++ [u1.uid]) }
          else x),
        outcome := JoinOutcome.joined } :=
  ((handleJoin_spec [shortCodeTrip, tripABCDEF, tripQRSTUV] " ABCDEF ".toList u1
      (by decide)).2.2 (by decide) tripABCDEF (by decide)).2.1 (by decide)

/-! ## Grouping -/

/-- C20: the claim is that every list of items is grouped, each item in the
group of its key.  The code does so for ordinary keys (first part: two groups,
`Clothes` and the default `General`, items in their order), but for an item
whose category or date is the name of a member of `Object.prototype`, such as
`constructor` or `toString`, `groups[key]` is the inherited member: no array is
created and `push` throws, so no grouping is produced at all. -/
theorem grouping_throws_on_inherited_key :
    packingListGroupedData [itemSocks, itemPassport, itemHat] =
      Except.ok [{ key := "Clothes", data := [itemSocks, itemHat] },
                 { key := "General", data := [itemPassport] }] ∧
    groupKey "category" "General" itemConstructor = "constructor" ∧
    packingListGroupedData [itemSocks, itemConstructor] =
      Except.error "TypeError: groups[key].push is not a function" ∧
    groupKey "date" "No date specified" entryToString = "toString" ∧
    itineraryGroupedData [entryToString] =
      Except.error "TypeError: groups[key].push is not a function" :=
  ⟨rfl, rfl, rfl, rfl, rfl⟩

/-! ## The captured selection -/

/-- C23: the listener registered when the identity becomes `u` records the
`currentTrip` of that moment, and the auto-selection test of its callback reads
that recorded value, not the current one: an emission of a listener opened
while `currentTrip` was null selects the first record of every non-empty list,
whatever is selected at the time, and an emission of a listener opened while
`currentTrip` was non-null never changes `currentTrip`. -/
theorem autoSelect_reads_captured_currentTrip (es : List Event) (n : Nat)
    (l : TripsListener) (hl : listening (run es) n = some l) :
    (l.currentTrip = none → ∀ (d : Doc) (ds : List Doc),
      (step (run es) (Event.snapshot n (d :: ds))).currentTrip = some d.toTrip) ∧
    (l.currentTrip = none →
      (step (run es) (Event.snapshot n [])).currentTrip = (run es).currentTrip) ∧
    (l.currentTrip ≠ none → ∀ docs : List Doc,
      (step (run es) (Event.snapshot n docs)).currentTrip = (run es).currentTrip) ∧
    (∀ u : User, (run es).authListener = true → (run es).currentUser ≠ some u →
      (step (run es) (Event.authStateChanged (some u))).tripsListener =
        some { id := (run es).listenerCount, uid := u.uid,
               currentTrip := (run es).currentTrip }) := by
  have hq := (inv_run es).quiescent
  refine ⟨?_, ?_, ?_, ?_⟩
  · intro hc d ds
    rw [step_snapshot hq hl]
    simp [onSnapshot, hc]
  · intro hc
    rw [step_snapshot hq hl]
    simp [onSnapshot]
  · intro hc docs
    rw [step_snapshot hq hl]
    simp [onSnapshot, hc]
  · intro u hm hu
    rw [step_auth_some hq hm u hu]

/-- C23, for the listener of `u1` (opened with no selection) after
`selectTrip(T2)`, and for the listener of `u2` opened while `T1` was
selected. -/
theorem autoSelect_reads_captured_currentTrip_witness :
    (run [Event.authStateChanged (some u1), Event.snapshot 0 [docT1, docT2],
          Event.selectTrip T2]).currentTrip = some T2 ∧
    (step (run [Event.authStateChanged (some u1), Event.snapshot 0 [docT1, docT2],
          Event.selectTrip T2]) (Event.snapshot 0 [docT1, docT2])).currentTrip
      = some docT1.toTrip ∧
    listening (run switchHistory) 1 = some { id := 1, uid := "u2", currentTrip := some T1 } ∧
    (step (run switchHistory) (Event.snapshot 1 [docT2])).currentTrip
      = (run switchHistory).currentTrip :=
  ⟨by decide,
   (autoSelect_reads_captured_currentTrip
      [Event.authStateChanged (some u1), Event.snapshot 0 [docT1, docT2],
       Event.selectTrip T2] 0 { id := 0, uid := "u1", currentTrip := none }
      (by decide)).1 rfl docT1 [docT2],
   by decide,
   (autoSelect_reads_captured_currentTrip switchHistory 1
      { id := 1, uid := "u2", currentTrip := some T1 } (by decide)).2.2.1
      (by decide) [docT2]⟩

/-! ## Adding an expense -/

theorem JsNumber.isPositive_iff (x : JsNumber) :
    x.isPositive = true ↔ x.isNaN = false ∧ x.leZero = false := by
  cases x with
  | nan => simp [JsNumber.isPositive, JsNumber.isNaN]
  | inf neg => cases neg <;> simp [JsNumber.isPositive, JsNumber.isNaN, JsNumber.leZero]
  | fin neg m e =>
    cases neg <;> simp [JsNumber.isPositive, JsNumber.isNaN, JsNumber.leZero]

theorem validateInputs_iff (parse : List Char → JsNumber) (form : ExpenseForm) :
    validateInputs parse form = true ↔
      jsTrim form.desc ≠ [] ∧ jsTrim form.amount ≠ [] ∧
        (parse form.amount).isPositive = true := by
  rw [JsNumber.isPositive_iff]
  unfold validateInputs validationAlert
  by_cases h1 : jsTrim form.desc = []
  · simp [h1]
  · by_cases h2 : jsTrim form.amount = []
    · simp [h1, h2]
    · cases h3 : (parse form.amount).isNaN <;> cases h4 : (parse form.amount).leZero <;>
        simp [h1, h2, h3, h4]

/-- C22 fails as stated: a form that `validateInputs` accepts is not written
when `addDoc` rejects; an error is shown and the fields stay. -/
theorem addExpense_not_written_when_addDoc_fails :
    validateInputs parseFloat formTaxi = true ∧
    (addExpense parseFloat ctxFails formTaxi).written = none ∧
    (addExpense parseFloat ctxFails formTaxi).form = formTaxi ∧
    (addExpense parseFloat ctxFails formTaxi).alert = some "Failed to save expense" := by
  decide

/-- C22, amended: `validateInputs` accepts the form exactly when the
description is non-blank, the amount text is non-blank and the amount parses to
a number strictly greater than 0; `addExpense` writes an expense exactly when
`validateInputs` accepts the form and `addDoc` succeeds; a written expense has
the trimmed description and as amount the parsed number, strictly greater than
0, and the form is cleared; when nothing is written (a rejected form, or a
failed `addDoc`) the form fields are unchanged and an alert is shown. -/
theorem addExpense_spec (parse : List Char → JsNumber) (ctx : ExpenseContext)
    (form : ExpenseForm) :
    (validateInputs parse form = true ↔
      jsTrim form.desc ≠ [] ∧ jsTrim form.amount ≠ [] ∧
        (parse form.amount).isPositive = true) ∧
    ((addExpense parse ctx form).written.isSome = true ↔
      validateInputs parse form = true ∧ ctx.addDocFails = false) ∧
    (∀ d, (addExpense parse ctx form).written = some d →
      d.desc = jsTrim form.desc ∧ d.amount = parse form.amount ∧
      d.amount.isPositive = true ∧ d.userId = ctx.user.uid ∧ d.tripId = ctx.tripId ∧
      (addExpense parse ctx form).form = { desc := [], amount := [] }) ∧
    ((addExpense parse ctx form).written = none →
      (addExpense parse ctx form).form = form ∧
      (addExpense parse ctx form).alert.isSome = true) := by
  have hv := validateInputs_iff parse form
  refine ⟨hv, ?_, ?_, ?_⟩
  · unfold addExpense
    cases ha : validationAlert parse form with
    | some message => simp [validateInputs, ha]
    | none => cases hf : ctx.addDocFails <;> simp [validateInputs, ha]
  · intro d hd
    have hpos : validateInputs parse form = true → (parse form.amount).isPositive = true :=
      fun h => (hv.1 h).2.2
    unfold addExpense at hd ⊢
    cases ha : validationAlert parse form with
    | some message =>
      rw [ha] at hd
      cases hd
    | none =>
      have hval : validateInputs parse form = true := by simp [validateInputs, ha]
      rw [ha] at hd
      cases hf : ctx.addDocFails with
      | true =>
        rw [hf] at hd
        cases hd
      | false =>
        rw [hf] at hd
        simp only [Bool.false_eq_true, if_false, Option.some.injEq] at hd
        subst hd
        exact ⟨rfl, rfl, hpos hval, rfl, rfl, rfl⟩
  · intro hw
    unfold addExpense at hw ⊢
    cases ha : validationAlert parse form with
    | some message => simp
    | none =>
      rw [ha] at hw
      cases hf : ctx.addDocFails with
      | true => simp
      | false =>
        rw [hf] at hw
        simp at hw

/-! ## The expense total -/

theorem digitChar_isDigit {d : Nat} (h : d < 10) : (Nat.digitChar d).isDigit = true := by
  interval_cases d <;> rfl

theorem decimalAux_isDigit (fuel n : Nat) (acc : List Char)
    (hacc : ∀ c ∈ acc, c.isDigit = true) :
    ∀ c ∈ decimalAux fuel n acc, c.isDigit = true := by
  induction fuel generalizing n acc with
  | zero => exact hacc
  | succ fuel ih =>
    intro c hc
    unfold decimalAux at hc
    split at hc
    · rename_i hlt
      rcases List.mem_cons.1 hc with h | h
      · rw [h]
        exact digitChar_isDigit hlt
      · exact hacc c h
    · refine ih (n / 10) (Nat.digitChar (n % 10) :: acc) ?_ c hc
      intro c' hc'
      rcases List.mem_cons.1 hc' with h | h
      · rw [h]
        exact digitChar_isDigit (Nat.mod_lt n (by norm_num))
      · exact hacc c' h

theorem decimalAux_ne_nil (fuel n : Nat) (acc : List Char) (h : fuel ≠ 0 ∨ acc ≠ []) :
    decimalAux fuel n acc ≠ [] := by
  induction fuel generalizing n acc with
  | zero =>
    rcases h with h | h
    · exact absurd rfl h
    · exact h
  | succ fuel ih =>
    unfold decimalAux
    split
    · exact List.cons_ne_nil _ _
    · exact ih (n / 10) _ (Or.inr (List.cons_ne_nil _ _))

theorem decimal_isDigit (n : Nat) : ∀ c ∈ decimal n, c.isDigit = true :=
  decimalAux_isDigit (n + 1) n [] (fun _ h => absurd h (List.not_mem_nil _))

theorem decimal_ne_nil (n : Nat) : decimal n ≠ [] :=
  decimalAux_ne_nil (n + 1) n [] (Or.inl (Nat.succ_ne_zero n))

/-- The text of `toFixed(2)` for a finite number below `10^21` in magnitude,
and how the integer `n` it spells relates to the number. -/
theorem toFixed2_of_lt (neg : Bool) (m : Nat) (e : Int)
    (h : m * 2 ^ e.toNat < 10 ^ 21 * 2 ^ (-e).toNat) :
    ∃ n : Nat,
      toFixed2 (JsNumber.fin neg m e) =
        Rendered.text ((if neg ∧ m ≠ 0 then ['-'] else []) ++ decimal (n / 100) ++
          ['.', Nat.digitChar (n % 100 / 10), Nat.digitChar (n % 10)]) ∧
      2 * n * 2 ^ (-e).toNat ≤ 200 * (m * 2 ^ e.toNat) + 2 ^ (-e).toNat ∧
      200 * (m * 2 ^ e.toNat) < 2 * n * 2 ^ (-e).toNat + 2 ^ (-e).toNat ∧
      TwoDecimals (toFixed2 (JsNumber.fin neg m e)) := by
  have hden : 0 < 2 * 2 ^ (-e).toNat := by positivity
  have htext : toFixed2 (JsNumber.fin neg m e) =
      Rendered.text ((if neg ∧ m ≠ 0 then ['-'] else []) ++
        decimal ((200 * (m * 2 ^ e.toNat) + 2 ^ (-e).toNat) / (2 * 2 ^ (-e).toNat) / 100) ++
        ['.', Nat.digitChar
            ((200 * (m * 2 ^ e.toNat) + 2 ^ (-e).toNat) / (2 * 2 ^ (-e).toNat) % 100 / 10),
          Nat.digitChar
            ((200 * (m * 2 ^ e.toNat) + 2 ^ (-e).toNat) / (2 * 2 ^ (-e).toNat) % 10)]) := by
    unfold toFixed2
    simp only [if_neg (Nat.not_le.2 h)]
  refine ⟨(200 * (m * 2 ^ e.toNat) + 2 ^ (-e).toNat) / (2 * 2 ^ (-e).toNat), htext, ?_, ?_, ?_⟩
  · have h1 := Nat.div_mul_le_self (200 * (m * 2 ^ e.toNat) + 2 ^ (-e).toNat)
      (2 * 2 ^ (-e).toNat)
    calc 2 * ((200 * (m * 2 ^ e.toNat) + 2 ^ (-e).toNat) / (2 * 2 ^ (-e).toNat)) *
          2 ^ (-e).toNat
        = (200 * (m * 2 ^ e.toNat) + 2 ^ (-e).toNat) / (2 * 2 ^ (-e).toNat) *
          (2 * 2 ^ (-e).toNat) := by ring
      _ ≤ 200 * (m * 2 ^ e.toNat) + 2 ^ (-e).toNat := h1
  · have h2 := Nat.lt_div_mul_add (a := 200 * (m * 2 ^ e.toNat) + 2 ^ (-e).toNat) hden
    have h3 : (200 * (m * 2 ^ e.toNat) + 2 ^ (-e).toNat) / (2 * 2 ^ (-e).toNat) *
        (2 * 2 ^ (-e).toNat) =
        2 * ((200 * (m * 2 ^ e.toNat) + 2 ^ (-e).toNat) / (2 * 2 ^ (-e).toNat)) *
          2 ^ (-e).toNat := by ring
    omega
  · rw [htext]
    refine ⟨if neg ∧ m ≠ 0 then ['-'] else [], decimal _, _, _, rfl, ?_, decimal_ne_nil _,
      decimal_isDigit _, digitChar_isDigit (by omega), digitChar_isDigit (by omega)⟩
    split
    · exact Or.inr rfl
    · exact Or.inl rfl

/-! ### Doubles -/

theorem bitLength_lt (n : Nat) : n < 2 ^ bitLength n :=
  (bitLengthAux_spec n n le_rfl).1

theorem bitLength_le (n : Nat) (h : n ≠ 0) : 2 ^ (bitLength n - 1) ≤ n :=
  (bitLengthAux_spec n n le_rfl).2 h

theorem bitLength_pos (n : Nat) (h : n ≠ 0) : 0 < bitLength n := by
  by_contra hc
  have h0 : bitLength n = 0 := by omega
  have h1 := bitLength_lt n
  rw [h0] at h1
  simp at h1
  exact h h1

theorem bitLength_eq {n b : Nat} (h1 : 2 ^ b ≤ n) (h2 : n < 2 ^ (b + 1)) :
    bitLength n = b + 1 := by
  have hn : n ≠ 0 := by
    intro h0
    rw [h0] at h1
    exact absurd h1 (by simp)
  have h3 := bitLength_lt n
  have h4 := bitLength_le n hn
  have h5 : b < bitLength n := (Nat.pow_lt_pow_iff_right (by norm_num)).1 (lt_of_le_of_lt h1 h3)
  have h6 : bitLength n - 1 < b + 1 :=
    (Nat.pow_lt_pow_iff_right (by norm_num)).1 (lt_of_le_of_lt h4 h2)
  omega

theorem bitLength_mul_pow (m t : Nat) (h : m ≠ 0) :
    bitLength (m * 2 ^ t) = bitLength m + t := by
  have h1 := bitLength_lt m
  have h2 := bitLength_le m h
  have h3 := bitLength_pos m h
  have h4 : bitLength m + t = (bitLength m - 1 + t) + 1 := by omega
  rw [h4]
  apply bitLength_eq
  · rw [pow_add]
    exact Nat.mul_le_mul_right _ h2
  · have h5 : bitLength m - 1 + t + 1 = bitLength m + t := by omega
    rw [h5, pow_add]
    exact Nat.mul_lt_mul_of_pos_right h1 (by positivity)

theorem stripZeros_odd_mul_pow (j : Nat) :
    ∀ (fuel m : Nat) (e : Int), m % 2 = 1 → j ≤ fuel →
      stripZeros fuel (m * 2 ^ j) e = (m, e + j) := by
  induction j with
  | zero =>
    intro fuel m e hm _
    cases fuel with
    | zero => simp [stripZeros]
    | succ fuel => simp [stripZeros, hm]
  | succ j ih =>
    intro fuel m e hm hj
    cases fuel with
    | zero => omega
    | succ fuel =>
      have h1 : m * 2 ^ (j + 1) % 2 = 0 := by
        rw [pow_succ, ← Nat.mul_assoc]
        exact Nat.mul_mod_left _ _
      have h2 : m * 2 ^ (j + 1) / 2 = m * 2 ^ j := by
        rw [pow_succ, ← Nat.mul_assoc]
        exact Nat.mul_div_cancel _ (by norm_num)
      unfold stripZeros
      rw [if_pos h1, h2, ih fuel m (e + 1) hm (by omega)]
      congr 1
      push_cast
      ring

theorem exists_odd_mul_pow (n : Nat) (h : n ≠ 0) :
    ∃ m j, m % 2 = 1 ∧ n = m * 2 ^ j := by
  induction n using Nat.strong_induction_on with
  | _ n ih =>
    by_cases hodd : n % 2 = 1
    · exact ⟨n, 0, hodd, by simp⟩
    · have h2 : n / 2 ≠ 0 := by omega
      obtain ⟨m, j, hm, hj⟩ := ih (n / 2) (by omega) h2
      refine ⟨m, j + 1, hm, ?_⟩
      rw [pow_succ, ← Nat.mul_assoc, ← hj]
      omega

theorem mkFin_odd_mul_pow (neg : Bool) (m j : Nat) (e : Int) (hm : m % 2 = 1) :
    mkFin neg (m * 2 ^ j) e = JsNumber.fin neg m (e + j) := by
  have hne : m * 2 ^ j ≠ 0 := by
    have h1 : 0 < m := by omega
    positivity
  have hj : j ≤ m * 2 ^ j := by
    have h1 : j < 2 ^ j := Nat.lt_two_pow j
    have h2 : 2 ^ j ≤ m * 2 ^ j := Nat.le_mul_of_pos_left _ (by omega)
    omega
  unfold mkFin
  rw [if_neg hne, stripZeros_odd_mul_pow j _ m e hm hj]

theorem roundHalfEven_bounds (n s : Nat) :
    n / 2 ^ s ≤ roundHalfEven n s ∧ roundHalfEven n s ≤ n / 2 ^ s + 1 := by
  unfold roundHalfEven
  simp only
  split_ifs <;> omega

theorem roundHalfEven_exact (q s : Nat) : roundHalfEven (q * 2 ^ s) s = q := by
  have hp : 0 < 2 ^ s := by positivity
  unfold roundHalfEven
  simp only [Nat.mul_mod_left, Nat.mul_div_cancel _ hp, Nat.mul_zero]
  rw [if_pos hp]

theorem mkFin_isDouble (neg : Bool) (sig : Nat) (e : Int) (h1 : sig ≤ 2 ^ 53)
    (h2 : -1074 ≤ e) (h3 : (bitLength sig : Int) + e ≤ 1024) :
    IsDouble (mkFin neg sig e) := by
  by_cases h0 : sig = 0
  · subst h0
    exact Or.inl ⟨rfl, rfl⟩
  · obtain ⟨m, j, hm, hj⟩ := exists_odd_mul_pow sig h0
    rw [hj, mkFin_odd_mul_pow neg m j e hm]
    have hm0 : m ≠ 0 := by omega
    have hb : bitLength sig = bitLength m + j := by
      rw [hj, bitLength_mul_pow m j hm0]
    have hle : m ≤ sig := by
      rw [hj]
      exact Nat.le_mul_of_pos_right _ (by positivity)
    refine Or.inr ⟨hm, ?_, by omega, ?_⟩
    · have h4 : m ≠ 2 ^ 53 := by
        intro h
        rw [h] at hm
        norm_num at hm
      omega
    · rw [hb] at h3
      push_cast at h3
      omega

theorem roundToDouble_isDouble (neg : Bool) (m : Nat) (e : Int) :
    IsDouble (roundToDouble neg m e) := by
  unfold roundToDouble
  by_cases h0 : m = 0
  · rw [if_pos h0]
    exact Or.inl ⟨rfl, rfl⟩
  · rw [if_neg h0]
    simp only
    split
    · exact trivial
    · rename_i hov
      apply mkFin_isDouble
      · have h1 := (roundHalfEven_bounds m (max (bitLength m - 53) (-1074 - e).toNat)).2
        have h2 : m < 2 ^ (53 + max (bitLength m - 53) (-1074 - e).toNat) :=
          lt_of_lt_of_le (bitLength_lt m) (Nat.pow_le_pow_right (by norm_num) (by omega))
        have h3 : m / 2 ^ max (bitLength m - 53) (-1074 - e).toNat < 2 ^ 53 := by
          rw [Nat.div_lt_iff_lt_mul (by positivity), ← pow_add]
          exact h2
        omega
      · have h1 : (-1074 - e).toNat ≤ max (bitLength m - 53) (-1074 - e).toNat :=
          le_max_right _ _
        have h2 := Int.self_le_toNat (-1074 - e)
        omega
      · omega


theorem roundToDouble_truthy (neg : Bool) (m : Nat) (e : Int) (hm : m ≠ 0)
    (he : -1074 ≤ e) : (roundToDouble neg m e).truthy = true := by
  have hs2 : (-1074 - e).toNat = 0 := by
    apply Int.toNat_of_nonpos
    omega
  have hpos := bitLength_pos m hm
  have h1 : 2 ^ (bitLength m - 53) ≤ m :=
    le_trans (Nat.pow_le_pow_right (by norm_num) (by omega)) (bitLength_le m hm)
  have h2 : 1 ≤ m / 2 ^ (bitLength m - 53) :=
    (Nat.one_le_div_iff (by positivity)).2 h1
  have h3 := (roundHalfEven_bounds m (bitLength m - 53)).1
  have hsig : roundHalfEven m (bitLength m - 53) ≠ 0 := by omega
  unfold roundToDouble
  rw [if_neg hm, hs2]
  simp only [Nat.max_zero, ge_iff_le, zero_le, max_eq_left]
  split
  · rfl
  · obtain ⟨m', j, hm', hj⟩ := exists_odd_mul_pow _ hsig
    rw [hj, mkFin_odd_mul_pow neg m' j _ hm']
    have hne : m' ≠ 0 := by omega
    simp [JsNumber.truthy, hne]

theorem isNegZero_of_truthy {x : JsNumber} (h : x.truthy = true) : x.isNegZero = false := by
  cases x with
  | nan => rfl
  | inf neg => rfl
  | fin neg m e =>
    cases neg with
    | false => rfl
    | true =>
      cases m with
      | zero => simp [JsNumber.truthy] at h
      | succ m => rfl

theorem bitLength_le_of_lt {m b : Nat} (h : m < 2 ^ b) : bitLength m ≤ b := by
  by_contra hc
  have hm : m ≠ 0 := by
    intro h0
    rw [h0] at hc
    exact hc (Nat.zero_le _)
  have h1 := bitLength_le m hm
  have h2 : 2 ^ b ≤ 2 ^ (bitLength m - 1) := Nat.pow_le_pow_right (by norm_num) (by omega)
  omega

theorem roundToDouble_of_double (neg : Bool) (m : Nat) (e e' : Int) (hodd : m % 2 = 1)
    (hm : m < 2 ^ 53) (he' : -1074 ≤ e') (hle : e' ≤ e)
    (hb : (bitLength m : Int) + e ≤ 1024) :
    roundToDouble neg (m * 2 ^ (e - e').toNat) e' = JsNumber.fin neg m e := by
  have hm0 : m ≠ 0 := by omega
  have ht : ((e - e').toNat : Int) = e - e' := Int.toNat_of_nonneg (by omega)
  have hM : m * 2 ^ (e - e').toNat ≠ 0 := by
    have h1 : 0 < m := by omega
    positivity
  have hs2 : (-1074 - e').toNat = 0 := by
    apply Int.toNat_of_nonpos
    omega
  have hbl := bitLength_le_of_lt hm
  have hbM := bitLength_mul_pow m (e - e').toNat hm0
  have hsplit : m * 2 ^ (e - e').toNat =
      (m * 2 ^ ((e - e').toNat - (bitLength m + (e - e').toNat - 53))) *
        2 ^ (bitLength m + (e - e').toNat - 53) := by
    rw [Nat.mul_assoc, ← pow_add]
    congr 2
    omega
  unfold roundToDouble
  rw [if_neg hM, hs2, hbM]
  simp only [Nat.max_zero, ge_iff_le, zero_le, max_eq_left]
  have hsig : roundHalfEven (m * 2 ^ (e - e').toNat) (bitLength m + (e - e').toNat - 53) =
      m * 2 ^ ((e - e').toNat - (bitLength m + (e - e').toNat - 53)) := by
    conv_lhs => rw [hsplit]
    exact roundHalfEven_exact _ _
  rw [hsig, bitLength_mul_pow m _ hm0, mkFin_odd_mul_pow neg m _ _ hodd]
  rw [if_neg]
  · congr 1
    omega
  · push_cast
    omega

theorem JsNumber.add_zero_right (x : JsNumber) (hx : SumValue x) :
    JsNumber.add x JsNumber.zero = x := by
  obtain ⟨hd, hz⟩ := hx
  cases x with
  | nan => rfl
  | inf neg => rfl
  | fin neg m e =>
    rcases hd with ⟨h0, he0⟩ | ⟨hodd, hm, he, hb⟩
    · subst h0 he0
      cases neg with
      | false => rfl
      | true => simp [JsNumber.isNegZero] at hz
    · have hm0 : m ≠ 0 := by omega
      have hmin1 : -1074 ≤ min e 0 := le_min he (by norm_num)
      have hmin2 : min e 0 ≤ e := min_le_left _ _
      have hr := roundToDouble_of_double neg m e (min e 0) hodd hm hmin1 hmin2 hb
      have ha : m * 2 ^ (e - min e 0).toNat ≠ 0 := by
        have h1 : 0 < m := by omega
        positivity
      cases neg with
      | false =>
        simp only [JsNumber.add, JsNumber.zero, if_true, Nat.zero_mul, Nat.add_zero]
        exact hr
      | true =>
        simp only [JsNumber.add, JsNumber.zero, Bool.true_eq_false, if_false, Nat.zero_mul,
          ha, Nat.sub_zero]
        rw [if_pos (Nat.pos_of_ne_zero ha)]
        exact hr

theorem JsNumber.add_isDouble (x y : JsNumber) : IsDouble (JsNumber.add x y) := by
  cases x with
  | nan => cases y <;> exact trivial
  | inf a =>
    cases y with
    | nan => exact trivial
    | inf b =>
      simp only [JsNumber.add]
      split <;> exact trivial
    | fin n2 m2 e2 => exact trivial
  | fin n1 m1 e1 =>
    cases y with
    | nan => exact trivial
    | inf b => exact trivial
    | fin n2 m2 e2 =>
      simp only [JsNumber.add]
      split
      · exact roundToDouble_isDouble _ _ _
      · split
        · exact Or.inl ⟨rfl, rfl⟩
        · split <;> exact roundToDouble_isDouble _ _ _

theorem exponent_ge_of_isDouble {neg : Bool} {m : Nat} {e : Int}
    (h : IsDouble (JsNumber.fin neg m e)) : -1074 ≤ e := by
  rcases h with ⟨_, he⟩ | ⟨_, _, he, _⟩
  · omega
  · exact he

theorem JsNumber.add_not_negZero (x y : JsNumber) (hx : SumValue x) (hy : SumValue y) :
    (JsNumber.add x y).isNegZero = false := by
  obtain ⟨hdx, hzx⟩ := hx
  obtain ⟨hdy, hzy⟩ := hy
  cases x with
  | nan => cases y <;> rfl
  | inf a =>
    cases y with
    | nan => rfl
    | inf b =>
      simp only [JsNumber.add]
      split <;> rfl
    | fin n2 m2 e2 => rfl
  | fin n1 m1 e1 =>
    cases y with
    | nan => rfl
    | inf b => rfl
    | fin n2 m2 e2 =>
      have he1 := exponent_ge_of_isDouble hdx
      have he2 := exponent_ge_of_isDouble hdy
      have hmin : -1074 ≤ min e1 e2 := le_min he1 he2
      simp only [JsNumber.add]
      split
      · rename_i hn
        by_cases hsum : m1 * 2 ^ (e1 - min e1 e2).toNat + m2 * 2 ^ (e2 - min e1 e2).toNat = 0
        · have hm1 : m1 = 0 := by
            have h1 : m1 * 2 ^ (e1 - min e1 e2).toNat = 0 := by omega
            rcases Nat.mul_eq_zero.1 h1 with h | h
            · exact h
            · exact absurd h (by positivity)
          subst hm1
          cases n1 with
          | false =>
            rw [hsum]
            rfl
          | true => simp [JsNumber.isNegZero] at hzx
        · exact isNegZero_of_truthy (roundToDouble_truthy _ _ _ hsum hmin)
      · split
        · rfl
        · rename_i hab
          split
          · exact isNegZero_of_truthy (roundToDouble_truthy _ _ _ (by omega) hmin)
          · exact isNegZero_of_truthy (roundToDouble_truthy _ _ _ (by omega) hmin)

theorem sumValue_zero : SumValue JsNumber.zero :=
  ⟨Or.inl ⟨rfl, rfl⟩, rfl⟩

theorem sumValue_orZero {x : JsNumber} (h : IsDouble x) : SumValue (orZero x) := by
  unfold orZero
  by_cases ht : x.truthy = true
  · rw [if_pos ht]
    exact ⟨h, isNegZero_of_truthy ht⟩
  · rw [if_neg ht]
    exact sumValue_zero

theorem parseAmount_isDouble (parse : List Char → JsNumber)
    (hp : ∀ s, IsDouble (parse s)) (a : AmountField) (ha : a.wellFormed) :
    IsDouble (parseAmount parse a) := by
  cases a with
  | missing => exact trivial
  | number x =>
    have hx : IsDouble x := ha
    show IsDouble (if x.truthy then x else if x.isNaN then x else JsNumber.zero)
    split
    · exact hx
    · split
      · exact hx
      · exact Or.inl ⟨rfl, rfl⟩
  | text s => exact hp s
  | other => exact trivial

theorem sumValue_foldl (parse : List Char → JsNumber) (hp : ∀ s, IsDouble (parse s))
    (expenses : List Expense) (hw : ∀ x ∈ expenses, x.amount.wellFormed)
    (start : JsNumber) (hs : SumValue start) :
    SumValue (expenses.foldl
      (fun sum expense => JsNumber.add sum (orZero (parseAmount parse expense.amount)))
      start) := by
  induction expenses generalizing start with
  | nil => exact hs
  | cons x rest ih =>
    simp only [List.foldl_cons]
    apply ih (fun y hy => hw y (List.mem_cons_of_mem x hy))
    have hy := sumValue_orZero
      (parseAmount_isDouble parse hp x.amount (hw x (List.mem_cons_self x rest)))
    exact ⟨JsNumber.add_isDouble _ _, JsNumber.add_not_negZero _ _ hs hy⟩

theorem sumValue_expenseTotal (parse : List Char → JsNumber)
    (hp : ∀ s, IsDouble (parse s)) (expenses : List Expense)
    (hw : ∀ x ∈ expenses, x.amount.wellFormed) :
    SumValue (expenseTotal parse expenses) :=
  sumValue_foldl parse hp expenses hw JsNumber.zero sumValue_zero

theorem expenseTotal_skip (parse : List Char → JsNumber) (hp : ∀ s, IsDouble (parse s))
    (pre post : List Expense) (x : Expense) (hw : ∀ y ∈ pre, y.amount.wellFormed)
    (hx : (parseAmount parse x.amount).truthy = false) :
    expenseTotal parse (pre ++ x :: post) = expenseTotal parse (pre ++ post) := by
  have hz : orZero (parseAmount parse x.amount) = JsNumber.zero := by
    unfold orZero
    rw [hx]
    rfl
  unfold expenseTotal
  rw [List.foldl_append, List.foldl_append, List.foldl_cons, hz,
    JsNumber.add_zero_right _ (sumValue_foldl parse hp pre hw JsNumber.zero sumValue_zero)]

theorem parseFloat_isDouble (s : List Char) : IsDouble (parseFloat s) := by
  have hdec : ∀ neg d len x, IsDouble (decimalToDouble neg d len x) := by
    intro neg d len x
    unfold decimalToDouble
    split
    · exact Or.inl ⟨rfl, rfl⟩
    · split
      · exact trivial
      · split
        · exact Or.inl ⟨rfl, rfl⟩
        · split
          · exact roundToDouble_isDouble _ _ _
          · exact roundToDouble_isDouble _ _ _
  have hun : ∀ neg cs, IsDouble (parseUnsigned neg cs) := by
    intro neg cs
    unfold parseUnsigned
    split
    · exact trivial
    · simp only
      split
      · exact trivial
      · exact hdec _ _ _ _
  unfold parseFloat
  split <;> exact hun _ _

/-! ### Whole amounts -/

theorem JsNumber.ofNat_repr (k : Nat) :
    ∃ m j : Nat, JsNumber.ofNat k = JsNumber.fin false m (j : Int) ∧ k = m * 2 ^ j := by
  by_cases h0 : k = 0
  · subst h0
    exact ⟨0, 0, rfl, by simp⟩
  · obtain ⟨m, j, hm, hj⟩ := exists_odd_mul_pow k h0
    refine ⟨m, j, ?_, hj⟩
    unfold JsNumber.ofNat
    rw [hj, mkFin_odd_mul_pow false m j 0 hm]
    simp

theorem mkFin_mul_pow (neg : Bool) (n j : Nat) (e : Int) :
    mkFin neg (n * 2 ^ j) e = mkFin neg n (e + j) := by
  by_cases h0 : n = 0
  · subst h0
    simp [mkFin]
  · obtain ⟨m, i, hm, hi⟩ := exists_odd_mul_pow n h0
    have h1 : n * 2 ^ j = m * 2 ^ (i + j) := by
      rw [hi, pow_add, Nat.mul_assoc]
    rw [h1, mkFin_odd_mul_pow neg m (i + j) e hm, hi, mkFin_odd_mul_pow neg m i (e + j) hm]
    congr 1
    push_cast
    ring

theorem roundToDouble_small (n j : Nat) (h : n * 2 ^ j < 2 ^ 53) :
    roundToDouble false n (j : Int) = JsNumber.ofNat (n * 2 ^ j) := by
  unfold JsNumber.ofNat
  rw [mkFin_mul_pow false n j 0]
  by_cases h0 : n = 0
  · subst h0
    simp [roundToDouble, mkFin]
  · have hb : bitLength (n * 2 ^ j) ≤ 53 := bitLength_le_of_lt h
    rw [bitLength_mul_pow n j h0] at hb
    have hs1 : bitLength n - 53 = 0 := by omega
    have hs2 : (-1074 - (j : Int)).toNat = 0 := by
      apply Int.toNat_of_nonpos
      omega
    have hr : roundHalfEven n 0 = n := by
      have h1 := roundHalfEven_exact n 0
      simpa using h1
    unfold roundToDouble
    rw [if_neg h0, hs1, hs2]
    simp only [max_self, hr, Nat.cast_zero, add_zero]
    rw [if_neg]
    · simp
    · omega

theorem JsNumber.add_ofNat (a b : Nat) (h : a + b < 2 ^ 53) :
    JsNumber.add (JsNumber.ofNat a) (JsNumber.ofNat b) = JsNumber.ofNat (a + b) := by
  obtain ⟨m1, j1, h1, ha⟩ := JsNumber.ofNat_repr a
  obtain ⟨m2, j2, h2, hb⟩ := JsNumber.ofNat_repr b
  rw [h1, h2]
  have hmin : min (j1 : Int) (j2 : Int) = ((min j1 j2 : Nat) : Int) := by
    rcases Nat.le_total j1 j2 with hle | hle
    · rw [min_eq_left hle, min_eq_left (by exact_mod_cast hle)]
    · rw [min_eq_right hle, min_eq_right (by exact_mod_cast hle)]
  have ht1 : ((j1 : Int) - ((min j1 j2 : Nat) : Int)).toNat = j1 - min j1 j2 := by
    have hle : min j1 j2 ≤ j1 := min_le_left _ _
    omega
  have ht2 : ((j2 : Int) - ((min j1 j2 : Nat) : Int)).toNat = j2 - min j1 j2 := by
    have hle : min j1 j2 ≤ j2 := min_le_right _ _
    omega
  have hsum : (m1 * 2 ^ (j1 - min j1 j2) + m2 * 2 ^ (j2 - min j1 j2)) * 2 ^ min j1 j2
      = a + b := by
    have hle1 : min j1 j2 ≤ j1 := min_le_left _ _
    have hle2 : min j1 j2 ≤ j2 := min_le_right _ _
    rw [Nat.add_mul, Nat.mul_assoc, Nat.mul_assoc, ← pow_add, ← pow_add,
      Nat.sub_add_cancel hle1, Nat.sub_add_cancel hle2, ← ha, ← hb]
  simp only [JsNumber.add, if_true, hmin, ht1, ht2]
  rw [roundToDouble_small _ _ (by rw [hsum]; exact h), hsum]

theorem toFixed2_ofNat (k : Nat) (h : k < 2 ^ 53) :
    toFixed2 (JsNumber.ofNat k) = Rendered.text (decimal k ++ ['.', '0', '0']) := by
  obtain ⟨m, j, hr, hk⟩ := JsNumber.ofNat_repr k
  have hlt : ¬ 10 ^ 21 ≤ m * 2 ^ j := by
    rw [← hk]
    norm_num at h ⊢
    omega
  have hn : (200 * (m * 2 ^ j) + 1) / 2 = 100 * k := by
    rw [← hk]
    omega
  rw [hr]
  unfold toFixed2
  simp only [Int.toNat_ofNat, Int.toNat_neg_nat, pow_zero, Nat.mul_one, if_neg hlt, hn,
    Bool.false_eq_true, false_and, if_false, List.nil_append]
  have h1 : 100 * k / 100 = k := by omega
  have h2 : 100 * k % 100 / 10 = 0 := by omega
  have h3 : 100 * k % 10 = 0 := by omega
  rw [h1, h2, h3]
  rfl

theorem parseAmount_ofNat (parse : List Char → JsNumber) (k : Nat) :
    orZero (parseAmount parse (AmountField.number (JsNumber.ofNat k))) =
      JsNumber.ofNat k := by
  obtain ⟨m, j, hr, hk⟩ := JsNumber.ofNat_repr k
  by_cases h0 : k = 0
  · subst h0
    rfl
  · have hm : m ≠ 0 := by
      intro hm0
      rw [hm0] at hk
      simp at hk
      exact h0 hk
    have ht : (JsNumber.ofNat k).truthy = true := by
      rw [hr]
      simp [JsNumber.truthy, hm]
    unfold parseAmount orZero
    simp [ht]

theorem expenseTotal_whole_foldl (parse : List Char → JsNumber) (ks : List Nat)
    (expenses : List Expense)
    (he : expenses.map Expense.amount =
      ks.map (fun k => AmountField.number (JsNumber.ofNat k)))
    (start : Nat) (h : start + ks.sum < 2 ^ 53) :
    expenses.foldl
      (fun sum expense => JsNumber.add sum (orZero (parseAmount parse expense.amount)))
      (JsNumber.ofNat start) = JsNumber.ofNat (start + ks.sum) := by
  induction ks generalizing expenses start with
  | nil =>
    have hnil : expenses = [] := by simpa using he
    subst hnil
    simp
  | cons k rest ih =>
    cases expenses with
    | nil => simp at he
    | cons x xs =>
      simp only [List.map_cons, List.cons.injEq] at he
      obtain ⟨hx, hxs⟩ := he
      simp only [List.sum_cons] at h
      simp only [List.foldl_cons, List.sum_cons, hx, parseAmount_ofNat]
      rw [JsNumber.add_ofNat start k (by omega), ih xs hxs (start + k) (by omega)]
      congr 1
      omega

/-- C21 fails as stated: a single amount of `10^21` (typed as a one followed by
21 zeros) gives a total that `toFixed(2)` renders in exponent notation, not
with two decimal places; and for the amounts `2^53` and `1` the displayed total
is `9007199254740992.00`, one less than the sum of the amounts. -/
theorem total_not_two_decimals_nor_exact :
    parseFloat "1000000000000000000000".toList = tenTo21 ∧
    displayedTotal parseFloat [expenseOf tenTo21] = Rendered.numberToString tenTo21 ∧
    ¬ TwoDecimals (displayedTotal parseFloat [expenseOf tenTo21]) ∧
    twoTo53 = JsNumber.ofNat 9007199254740992 ∧ jsOne = JsNumber.ofNat 1 ∧
    displayedTotal parseFloat [expenseOf twoTo53, expenseOf jsOne] =
      Rendered.text "9007199254740992.00".toList ∧
    decimal (9007199254740992 + 1) = "9007199254740993".toList := by
  have h1 : displayedTotal parseFloat [expenseOf tenTo21] =
      Rendered.numberToString tenTo21 := by decide
  refine ⟨by decide, h1, ?_, by decide, by decide, by decide, by decide⟩
  rw [h1]
  exact fun h => h

/-- C21, amended: the displayed total is `toFixed(2)` of the sum of the amounts
in double arithmetic, taken in list order from `0`.  For the empty list it is
`0.00`.  An expense whose amount does not parse as a number, or is zero, adds
`0` and can be left out without changing the total.  When the sum is finite
and below `10^21` in magnitude the text has exactly two decimal places and
spells the hundredth nearest to the sum.  When the amounts are whole numbers
with a sum below `2^53` the text is exactly that sum followed by `.00`. -/
theorem displayedTotal_spec (parse : List Char → JsNumber)
    (hp : ∀ s, IsDouble (parse s)) :
    displayedTotal parse [] = Rendered.text "0.00".toList ∧
    (∀ (xs : List Expense) (x : Expense),
      expenseTotal parse (xs ++ [x]) =
        JsNumber.add (expenseTotal parse xs) (orZero (parseAmount parse x.amount))) ∧
    (∀ (pre post : List Expense) (x : Expense), (∀ y ∈ pre, y.amount.wellFormed) →
      (parseAmount parse x.amount).truthy = false →
      displayedTotal parse (pre ++ x :: post) = displayedTotal parse (pre ++ post)) ∧
    (∀ (expenses : List Expense) (neg : Bool) (m : Nat) (e : Int),
      expenseTotal parse expenses = JsNumber.fin neg m e →
      m * 2 ^ e.toNat < 10 ^ 21 * 2 ^ (-e).toNat →
      TwoDecimals (displayedTotal parse expenses) ∧
      ∃ n : Nat,
        displayedTotal parse expenses =
          Rendered.text ((if neg ∧ m ≠ 0 then ['-'] else []) ++ decimal (n / 100) ++
            ['.', Nat.digitChar (n % 100 / 10), Nat.digitChar (n % 10)]) ∧
        2 * n * 2 ^ (-e).toNat ≤ 200 * (m * 2 ^ e.toNat) + 2 ^ (-e).toNat ∧
        200 * (m * 2 ^ e.toNat) < 2 * n * 2 ^ (-e).toNat + 2 ^ (-e).toNat) ∧
    (∀ (expenses : List Expense) (ks : List Nat),
      expenses.map Expense.amount =
        ks.map (fun k => AmountField.number (JsNumber.ofNat k)) →
      ks.sum < 2 ^ 53 →
      displayedTotal parse expenses = Rendered.text (decimal ks.sum ++ ['.', '0', '0'])) := by
  refine ⟨rfl, ?_, ?_, ?_, ?_⟩
  · intro xs x
    simp [expenseTotal, List.foldl_append]
  · intro pre post x hw hx
    unfold displayedTotal
    rw [expenseTotal_skip parse hp pre post x hw hx]
  · intro expenses neg m e ht hlt
    obtain ⟨n, h1, h2, h3, h4⟩ := toFixed2_of_lt neg m e hlt
    unfold displayedTotal
    rw [ht]
    exact ⟨h4, n, h1, h2, h3⟩
  · intro expenses ks he hs
    have h0 := expenseTotal_whole_foldl parse ks expenses he 0 (by omega)
    have h1 : expenseTotal parse expenses = JsNumber.ofNat ks.sum := by
      unfold expenseTotal
      have hz : JsNumber.zero = JsNumber.ofNat 0 := rfl
      rw [hz, h0, Nat.zero_add]
    unfold displayedTotal
    rw [h1, toFixed2_ofNat _ hs]

/-- C21 amended, with the model of the built-in `parseFloat`: an empty list,
and the whole amounts 12, 0 and 30. -/
theorem displayedTotal_spec_witness :
    displayedTotal parseFloat [] = Rendered.text "0.00".toList ∧
    displayedTotal parseFloat
        [expenseOf (JsNumber.ofNat 12), expenseOf (JsNumber.ofNat 0),
         expenseOf (JsNumber.ofNat 30)] =
      Rendered.text "42.00".toList :=
  have h := displayedTotal_spec parseFloat parseFloat_isDouble
  ⟨h.1,
   (h.2.2.2.2
      [expenseOf (JsNumber.ofNat 12), expenseOf (JsNumber.ofNat 0),
       expenseOf (JsNumber.ofNat 30)] [12, 0, 30] rfl (by decide)).trans (by decide)⟩

end TravelApp
